import Mathlib

/-!
Verification of the resolution-cache / project-graph component
(`createResolutionCache` and the `Project` class).

Shallow embedding conventions:
* A canonical absolute path (the `Path` type of the source, produced by
  `toPath`) is modelled as its list of segments: `/a/b` is `["a", "b"]` and
  the filesystem root `/` is `[]`.  `getDirectoryPath` is `dropLast`.
* JS `Map`s are modelled as insertion-ordered association lists; `Map.set`
  replaces the binding in place (or appends), `Map.delete` removes it, and
  iteration (`forEach`) is a left fold in list order.
* Resolution records are mutated in place (`resolution.isInvalidated = true`)
  and aliased between the per-file and per-directory caches, so records live
  in an explicit store (`heap`) indexed by `RecId`; the caches hold record
  ids.  JS object identity (`===`) on records is id equality.
* Watch handles are opaque: a `DirectoryWatchesOfFailedLookup` entry carries a
  numeric handle id, and closing a handle appends its id to `closedWatchers`.
-/

namespace TSModel

/-- A canonical absolute path, as its list of segments. -/
abbrev Path := List String

/-- `ts.getDirectoryPath` on canonical paths: drop the last segment
(`getDirectoryPath "/" = "/"` becomes `dropLast [] = []`). -/
def getDirectoryPath (p : Path) : Path := p.dropLast

/-- `Map.get`: first binding of the key in the association list. -/
def alGet {α β : Type} [DecidableEq α] : List (α × β) → α → Option β
  | [], _ => none
  | (k', v) :: rest, k => if k' = k then some v else alGet rest k

/-- `Map.set`: replace the first binding of the key, or append a new one. -/
def alSet {α β : Type} [DecidableEq α] : List (α × β) → α → β → List (α × β)
  | [], k, v => [(k, v)]
  | (k', v') :: rest, k, v =>
      if k' = k then (k, v) :: rest else (k', v') :: alSet rest k v

/-- `Map.delete`: remove every binding of the key (a well-formed map has at
most one). -/
def alDelete {α β : Type} [DecidableEq α] (m : List (α × β)) (k : α) :
    List (α × β) :=
  m.filter (fun e => !(e.1 = k : Bool))

/-!  ### The watch-placement algorithm (`getDirectoryToWatchFailedLookupLocation`)  -/

/-- `isNodeModulesDirectory`: the path ends with the `/node_modules` segment. -/
def isNodeModulesDirectory (p : Path) : Bool := p.getLast? = some "node_modules"

/-- `isInDirectoryPath(dir, file)` on canonical paths: `dir` is a strictly
shorter segment-prefix of `file`.  The source checks
`startsWith(file, dir) && file[dir.length] === "/"`; for the root directory
`"/"` (here `[]`) that separator test always fails on a normalized path, so
the root is never reported as containing anything. -/
def isInDirectoryPath (dir file : Path) : Bool :=
  match dir with
  | [] => false
  | _ => decide (file.take dir.length = dir) && decide (dir.length < file.length)

/-- `isInDirectoryPath` with the source's `dir === undefined` guard
(`rootPath` may be undefined). -/
def isInDirectoryPathOpt : Option Path → Path → Bool
  | none, _ => false
  | some d, f => isInDirectoryPath d f

/-- The `while (!isNodeModulesDirectory(dirPath))` walk: keep taking
`getDirectoryPath` until the current directory is a `node_modules` directory.
(The source only enters this loop when the path contains `/node_modules/`, so
the loop always exits before reaching the root.) -/
def nodeModulesAncestorWalk (p : Path) : Path :=
  if isNodeModulesDirectory p then p
  else if h : p = [] then []
  else nodeModulesAncestorWalk p.dropLast
termination_by p.length
decreasing_by
  have : 0 < p.length := List.length_pos.mpr h
  simp [List.length_dropLast]
  omega

/-- The `while (!isInDirectoryPath(dirPath, rootPath))` walk: keep taking
`getDirectoryPath` until the current directory is an ancestor of the project
root, breaking when the parent equals the directory (the filesystem root). -/
def ancestorOfRootWalk (rootPath : Path) (p : Path) : Path :=
  if isInDirectoryPath p rootPath then p
  else if h : p.dropLast = p then p
  else ancestorOfRootWalk rootPath p.dropLast
termination_by p.length
decreasing_by
  have hne : p ≠ [] := by
    intro hnil
    rw [hnil] at h
    exact h rfl
  have : 0 < p.length := List.length_pos.mpr hne
  simp [List.length_dropLast]
  omega

/-- `getDirectoryToWatchFailedLookupLocation`: choose the directory to watch
for a failed lookup location.  (`failedLookupLocation` and its canonical
`failedLookupLocationPath` coincide in this model; the returned `dir` and
`dirPath` are kept in lockstep by the source, so only the canonical path is
modelled.) -/
def getDirectoryToWatchFailedLookupLocation (rootPath : Option Path)
    (failedLookupLocationPath : Path) : Path :=
  if isInDirectoryPathOpt rootPath failedLookupLocationPath then
    rootPath.getD []
  else
    let dirPath := getDirectoryPath failedLookupLocationPath
    -- if the directory is node_modules use it to watch
    if isNodeModulesDirectory dirPath then dirPath
    -- if directory path contains node module, get the node_modules directory
    else if dirPath.dropLast.contains "node_modules" then
      nodeModulesAncestorWalk dirPath
    -- use some ancestor of the root directory
    else
      match rootPath with
      | some r => ancestorOfRootWalk r dirPath
      | none => dirPath

/-!  ### Resolution cache state (`createResolutionCache` closure variables)  -/

/-- A record id: JS object identity for `ResolutionWithFailedLookupLocations`
records shared between the per-file and per-directory caches. -/
abbrev RecId := Nat

/-- A `ResolutionWithFailedLookupLocations` record, collapsed to what the cache
logic reads: `resolvedFileName?` is
`getResolutionWithResolvedFileName(resolution) && toPath(result.resolvedFileName)`
(`none` = unresolved), `failedLookupLocations` the probed paths (already
canonical in this model), `isInvalidated` the in-place invalidation flag. -/
structure Resolution where
  resolvedFileName? : Option Path
  failedLookupLocations : List Path
  isInvalidated : Bool
deriving DecidableEq

/-- `DirectoryWatchesOfFailedLookup`: an opaque watch handle plus the ref
count keeping the directory watch alive. `refCount` is an `Int` because the
source decrements a JS number without a lower bound. -/
structure DirectoryWatchesOfFailedLookup where
  watcherId : Nat
  refCount : Int
deriving DecidableEq

/-- A per-file (or per-directory) bag of resolutions: lookup name to record id. -/
abbrev ResolutionMap := List (String × RecId)

/-- The mutable closure state of `createResolutionCache`. -/
structure ResolutionCacheState where
  /-- record store; caches hold `RecId`s into it -/
  heap : List (RecId × Resolution)
  /-- next fresh record id (allocation counter for new loader results) -/
  nextRecId : RecId
  resolvedModuleNames : List (Path × ResolutionMap)
  resolvedTypeReferenceDirectives : List (Path × ResolutionMap)
  perDirectoryResolvedModuleNames : List (Path × ResolutionMap)
  perDirectoryResolvedTypeReferenceDirectives : List (Path × ResolutionMap)
  filesWithChangedSetOfUnresolvedImports : Option (List Path)
  filesWithInvalidatedResolutions : Option (List Path)
  allFilesHaveInvalidatedResolution : Bool
  customFailedLookupPaths : List (Path × Nat)
  directoryWatchesOfFailedLookups : List (Path × DirectoryWatchesOfFailedLookup)
  /-- next fresh watch-handle id -/
  nextWatcherId : Nat
  /-- handle ids on which `watcher.close()` has been called -/
  closedWatchers : List Nat
deriving DecidableEq

/-- The host-provided configuration the modelled operations read:
`maxNumberOfFilesToIterateForInvalidation` (optional, `0` is falsy in
`host.max || 256`) and the canonical project root `rootPath` (undefined when
no root dir was supplied). -/
structure ResolutionCacheHost where
  maxNumberOfFilesToIterateForInvalidation : Option Nat
  rootPath : Option Path
deriving DecidableEq

/-- `export const maxNumberOfFilesToIterateForInvalidation = 256`. -/
def maxNumberOfFilesToIterateForInvalidation : Nat := 256

/-- Heap read; the source dereferences records directly, so a missing id never
occurs in well-formed states (the default is only for totality). -/
def getRec (heap : List (RecId × Resolution)) (rid : RecId) : Resolution :=
  (alGet heap rid).getD ⟨none, [], false⟩

/-- `isPathWithDefaultFailedLookupExtension`: the last segment ends in one of
`.ts`, `.tsx`, `.js`, `.jsx`, `.json` (so `.d.ts` also qualifies via `.ts`). -/
def isPathWithDefaultFailedLookupExtension (p : Path) : Bool :=
  [".ts", ".tsx", ".js", ".jsx", ".json"].any
    (fun ext => (p.getLastD "").endsWith ext)

/-!  ### Failed-lookup-location watch bookkeeping  -/

/-- First half of a `watchFailedLookupLocationOfResolution` loop iteration:
if the failed lookup location path is not one of the supported extensions,
store it in the custom path (bump its ref count). -/
def watchCustomPath (s : ResolutionCacheState)
    (failedLookupLocationPath : Path) : ResolutionCacheState :=
  if isPathWithDefaultFailedLookupExtension failedLookupLocationPath then s
  else
    let refCount := (alGet s.customFailedLookupPaths failedLookupLocationPath).getD 0
    { s with customFailedLookupPaths :=
        alSet s.customFailedLookupPaths failedLookupLocationPath (refCount + 1) }

/-- Second half of a `watchFailedLookupLocationOfResolution` loop iteration:
create the directory watch or bump its ref count. -/
def watchDirOfFailedLookup (host : ResolutionCacheHost)
    (s : ResolutionCacheState) (failedLookupLocationPath : Path) :
    ResolutionCacheState :=
  match alGet s.directoryWatchesOfFailedLookups
      (getDirectoryToWatchFailedLookupLocation host.rootPath
        failedLookupLocationPath) with
  | some dirWatcher =>
      let watches := alSet s.directoryWatchesOfFailedLookups
        (getDirectoryToWatchFailedLookupLocation host.rootPath
          failedLookupLocationPath)
        { dirWatcher with refCount := dirWatcher.refCount + 1 }
      { s with directoryWatchesOfFailedLookups := watches }
  | none =>
      let watches := alSet s.directoryWatchesOfFailedLookups
        (getDirectoryToWatchFailedLookupLocation host.rootPath
          failedLookupLocationPath)
        ⟨s.nextWatcherId, 1⟩
      { s with directoryWatchesOfFailedLookups := watches,
               nextWatcherId := s.nextWatcherId + 1 }

/-- One iteration of the loop in `watchFailedLookupLocationOfResolution`. -/
def watchOneFailedLookupLocation (host : ResolutionCacheHost)
    (s : ResolutionCacheState) (failedLookupLocationPath : Path) :
    ResolutionCacheState :=
  watchDirOfFailedLookup host (watchCustomPath s failedLookupLocationPath)
    failedLookupLocationPath

/-- `watchFailedLookupLocationOfResolution(resolution, startIndex)`. -/
def watchFailedLookupLocationOfResolution (host : ResolutionCacheHost)
    (s : ResolutionCacheState) (rid : RecId) (startIndex : Nat) :
    ResolutionCacheState :=
  ((getRec s.heap rid).failedLookupLocations.drop startIndex).foldl
    (watchOneFailedLookupLocation host) s

/-- First half of a `stopWatchFailedLookupLocationOfResolutionFrom` loop
iteration: release one custom-path ref (deleting the entry at ref count 1). -/
def stopWatchCustomPath (s : ResolutionCacheState)
    (failedLookupLocationPath : Path) : ResolutionCacheState :=
  match alGet s.customFailedLookupPaths failedLookupLocationPath with
  | some refCount =>
      -- `if (refCount)`: 0 is falsy
      if refCount = 0 then s
      else if refCount = 1 then
        let custom := alDelete s.customFailedLookupPaths failedLookupLocationPath
        { s with customFailedLookupPaths := custom }
      else
        let custom := alSet s.customFailedLookupPaths failedLookupLocationPath
          (refCount - 1)
        { s with customFailedLookupPaths := custom }
  | none => s

/-- Second half of a `stopWatchFailedLookupLocationOfResolutionFrom` loop
iteration: decrement the directory watch's ref count — the watcher is
deliberately not closed yet since it might be needed by other failed lookup
locations. -/
def stopWatchDirOfFailedLookup (host : ResolutionCacheHost)
    (s : ResolutionCacheState) (failedLookupLocationPath : Path) :
    ResolutionCacheState :=
  match alGet s.directoryWatchesOfFailedLookups
      (getDirectoryToWatchFailedLookupLocation host.rootPath
        failedLookupLocationPath) with
  | some dirWatcher =>
      let watches := alSet s.directoryWatchesOfFailedLookups
        (getDirectoryToWatchFailedLookupLocation host.rootPath
          failedLookupLocationPath)
        { dirWatcher with refCount := dirWatcher.refCount - 1 }
      { s with directoryWatchesOfFailedLookups := watches }
  | none => s   -- the source would crash here; unreachable in well-formed states

/-- One iteration of the loop in
`stopWatchFailedLookupLocationOfResolutionFrom`. -/
def stopWatchOneFailedLookupLocation (host : ResolutionCacheHost)
    (s : ResolutionCacheState) (failedLookupLocationPath : Path) :
    ResolutionCacheState :=
  stopWatchDirOfFailedLookup host (stopWatchCustomPath s failedLookupLocationPath)
    failedLookupLocationPath

/-- `stopWatchFailedLookupLocationOfResolutionFrom(resolution, startIndex)`. -/
def stopWatchFailedLookupLocationOfResolutionFrom (host : ResolutionCacheHost)
    (s : ResolutionCacheState) (rid : RecId) (startIndex : Nat) :
    ResolutionCacheState :=
  ((getRec s.heap rid).failedLookupLocations.drop startIndex).foldl
    (stopWatchOneFailedLookupLocation host) s

/-- `stopWatchFailedLookupLocationOfResolution`: `failedLookupLocations` is
always an array (truthy even when empty), so this is the `From 0` call. -/
def stopWatchFailedLookupLocationOfResolution (host : ResolutionCacheHost)
    (s : ResolutionCacheState) (rid : RecId) : ResolutionCacheState :=
  stopWatchFailedLookupLocationOfResolutionFrom host s rid 0

/-- Length of the longest common prefix of two lists (the index at which the
element-wise comparison loop in `watchAndStopWatchDiffFailedLookupLocations`
first differs). -/
def commonPrefixLength : List Path → List Path → Nat
  | a :: as, b :: bs => if a = b then commonPrefixLength as bs + 1 else 0
  | _, _ => 0

/-- `watchAndStopWatchDiffFailedLookupLocations(resolution, existingResolution)`:
watch the new resolution's failed lookup locations from the first index at
which they diverge from the existing ones, and stop watching the existing
ones from that index. -/
def watchAndStopWatchDiffFailedLookupLocations (host : ResolutionCacheHost)
    (s : ResolutionCacheState) (rid exId : RecId) : ResolutionCacheState :=
  let failedLookupLocations := (getRec s.heap rid).failedLookupLocations
  let existingFailedLookupLocations := (getRec s.heap exId).failedLookupLocations
  let k := commonPrefixLength failedLookupLocations existingFailedLookupLocations
  if k = failedLookupLocations.length then
    -- all new failed lookup locations are already watched (and are the same)
    stopWatchFailedLookupLocationOfResolutionFrom host s exId
      failedLookupLocations.length
  else if k = existingFailedLookupLocations.length then
    -- additional failed lookup locations, watch from this index
    watchFailedLookupLocationOfResolution host s rid k
  else
    -- different: watch the new from `k`, stop watching the existing from `k`
    stopWatchFailedLookupLocationOfResolutionFrom host
      (watchFailedLookupLocationOfResolution host s rid k) exId k

/-!  ### Removal and invalidation  -/

/-- `removeResolutionsOfFileFromCache` for one cache, returning the updated
cache alongside the state (stop watching all the file's resolutions, then
delete its entry). -/
def removeResolutionsOfFileFromCache (host : ResolutionCacheHost)
    (cache : List (Path × ResolutionMap)) (s : ResolutionCacheState)
    (filePath : Path) : List (Path × ResolutionMap) × ResolutionCacheState :=
  match alGet cache filePath with
  | some resolutions =>
      (alDelete cache filePath,
       resolutions.foldl
         (fun st nr => stopWatchFailedLookupLocationOfResolution host st nr.2) s)
  | none => (cache, s)

/-- `removeResolutionsOfFile(filePath)`. -/
def removeResolutionsOfFile (host : ResolutionCacheHost)
    (s : ResolutionCacheState) (filePath : Path) : ResolutionCacheState :=
  let (mods, s1) := removeResolutionsOfFileFromCache host s.resolvedModuleNames
    s filePath
  let s2 := { s1 with resolvedModuleNames := mods }
  let (typeRefs, s3) := removeResolutionsOfFileFromCache host
    s2.resolvedTypeReferenceDirectives s2 filePath
  { s3 with resolvedTypeReferenceDirectives := typeRefs }

/-- One `resolutions.forEach` iteration of `invalidateResolutionCache`,
over the flattened `(containingFilePath, name, recId)` triples.  `seen` is the
per-call dedup map keyed by `(directory of containing file, name)`. -/
def invalidateStep (pred : Resolution → Bool)
    (acc : ResolutionCacheState × List (Path × String))
    (t : Path × String × RecId) : ResolutionCacheState × List (Path × String) :=
  let dirPath := getDirectoryPath t.1
  if (dirPath, t.2.1) ∈ acc.2 then acc
  else
    let seen' := (dirPath, t.2.1) :: acc.2
    let r := getRec acc.1.heap t.2.2
    if !r.isInvalidated && pred r then
      ({ acc.1 with
          heap := alSet acc.1.heap t.2.2 { r with isInvalidated := true }
          filesWithInvalidatedResolutions :=
            some (match acc.1.filesWithInvalidatedResolutions with
              | some l => if t.1 ∈ l then l else l ++ [t.1]
              | none => [t.1]) },
       seen')
    else (acc.1, seen')

/-- Flatten a cache into `(containingFilePath, name, recId)` triples in
iteration order. -/
def cacheTriples (cache : List (Path × ResolutionMap)) :
    List (Path × String × RecId) :=
  cache.flatMap (fun e => e.2.map (fun nr => (e.1, nr.1, nr.2)))

/-- `invalidateResolutionCache(cache, isInvalidatedResolution, ...)`: walk
every cached resolution (skipping repeated `(directory, name)` pairs), mark
matching ones invalidated and record their containing files. -/
def invalidateResolutionCache (pred : Resolution → Bool)
    (cache : List (Path × ResolutionMap)) (s : ResolutionCacheState) :
    ResolutionCacheState :=
  ((cacheTriples cache).foldl (invalidateStep pred) (s, [])).1

/-- `hasReachedResolutionIterationLimit()`: either per-file cache holds more
containing files than `host.maxNumberOfFilesToIterateForInvalidation || 256`. -/
def hasReachedResolutionIterationLimit (host : ResolutionCacheHost)
    (s : ResolutionCacheState) : Bool :=
  let maxSize :=
    match host.maxNumberOfFilesToIterateForInvalidation with
    | some m => if m = 0 then maxNumberOfFilesToIterateForInvalidation else m
    | none => maxNumberOfFilesToIterateForInvalidation
  maxSize < s.resolvedModuleNames.length
    || maxSize < s.resolvedTypeReferenceDirectives.length

/-- `invalidateResolutions(isInvalidatedResolution)`: over the iteration limit
just flag everything invalidated, otherwise walk both caches. -/
def invalidateResolutions (host : ResolutionCacheHost)
    (pred : Resolution → Bool) (s : ResolutionCacheState) :
    ResolutionCacheState :=
  if hasReachedResolutionIterationLimit host s then
    { s with allFilesHaveInvalidatedResolution := true }
  else
    invalidateResolutionCache pred s.resolvedTypeReferenceDirectives
      (invalidateResolutionCache pred s.resolvedModuleNames s)

/-- `invalidateResolutionOfFile(filePath)`: purge the file's own entries, then
invalidate every resolution whose resolved file name is the deleted path. -/
def invalidateResolutionOfFile (host : ResolutionCacheHost)
    (s : ResolutionCacheState) (filePath : Path) : ResolutionCacheState :=
  invalidateResolutions host
    (fun resolution =>
      match resolution.resolvedFileName? with
      | some result => decide (result = filePath)
      | none => false)
    (removeResolutionsOfFile host s filePath)

/-!  ### Pass bookkeeping  -/

/-- `createHasInvalidatedResolution()`: returns the predicate and the state
with the collected set consumed. -/
def createHasInvalidatedResolution (s : ResolutionCacheState) :
    (Path → Bool) × ResolutionCacheState :=
  if s.allFilesHaveInvalidatedResolution then
    (fun _ => true, { s with filesWithInvalidatedResolutions := none })
  else
    (fun path =>
       match s.filesWithInvalidatedResolutions with
       | some collected => collected.contains path
       | none => false,
     { s with filesWithInvalidatedResolutions := none })

/-- `finishCachingPerDirectoryResolution()`: reset the overflow flag, close
and remove every directory watch whose ref count is zero, and clear both
per-directory caches. -/
def finishCachingPerDirectoryResolution (s : ResolutionCacheState) :
    ResolutionCacheState :=
  { s with
    allFilesHaveInvalidatedResolution := false
    directoryWatchesOfFailedLookups :=
      s.directoryWatchesOfFailedLookups.filter
        (fun e => !(e.2.refCount = 0 : Bool))
    closedWatchers :=
      s.closedWatchers ++
        ((s.directoryWatchesOfFailedLookups.filter
            (fun e => (e.2.refCount = 0 : Bool))).map (fun e => e.2.watcherId))
    perDirectoryResolvedModuleNames := []
    perDirectoryResolvedTypeReferenceDirectives := [] }

/-!  ### Name resolution with the dual-level cache
(`resolveNamesWithLocalCache`)  -/

/-- Which name-kind's caches a call uses. -/
inductive CacheKind
  | modules
  | typeRefs
deriving DecidableEq

/-- The per-file cache for a kind. -/
def getCacheOf (s : ResolutionCacheState) : CacheKind → List (Path × ResolutionMap)
  | .modules => s.resolvedModuleNames
  | .typeRefs => s.resolvedTypeReferenceDirectives

/-- The per-directory cache for a kind. -/
def getPerDirCacheOf (s : ResolutionCacheState) :
    CacheKind → List (Path × ResolutionMap)
  | .modules => s.perDirectoryResolvedModuleNames
  | .typeRefs => s.perDirectoryResolvedTypeReferenceDirectives

/-- Store back the per-file cache for a kind. -/
def setCacheOf (s : ResolutionCacheState) (kind : CacheKind)
    (cache : List (Path × ResolutionMap)) : ResolutionCacheState :=
  match kind with
  | .modules => { s with resolvedModuleNames := cache }
  | .typeRefs => { s with resolvedTypeReferenceDirectives := cache }

/-- Store back the per-directory cache for a kind. -/
def setPerDirCacheOf (s : ResolutionCacheState) (kind : CacheKind)
    (cache : List (Path × ResolutionMap)) : ResolutionCacheState :=
  match kind with
  | .modules => { s with perDirectoryResolvedModuleNames := cache }
  | .typeRefs => { s with perDirectoryResolvedTypeReferenceDirectives := cache }

/-- `ts.contains(reusedNames, name)` with `reusedNames` possibly undefined. -/
def containsOpt (reusedNames : Option (List String)) (name : String) : Bool :=
  match reusedNames with
  | some l => l.contains name
  | none => false

/-- `resolutionIsEqualTo(oldResolution, newResolution)` over record ids.
`===` on records and on their result descriptors is object identity: distinct
records hold distinct descriptor objects, so `oldResult === newResult` is true
exactly when both are `undefined`; otherwise the resolved file names are
compared as strings. -/
def resolutionIsEqualTo (heap : List (RecId × Resolution)) :
    Option RecId → Option RecId → Bool
  | old?, new? =>
    if old? = new? then true
    else
      match old?, new? with
      | some o, some _ =>
          let oldRec := getRec heap o
          if oldRec.isInvalidated then false
          else
            match oldRec.resolvedFileName?,
                (getRec heap (new?.getD 0)).resolvedFileName? with
            | none, none => true
            | some a, some b => decide (a = b)
            | _, _ => false
      | _, _ => false

/-- The accumulator threaded through the `for (const name of names)` loop:
the closure state plus the local views `resolutionsInFile`,
`perDirectoryResolution` (mutations through these JS references are written
back to the maps when the call ends), `seenNamesInFile`, the `logChanges`
flag (cleared after the first recorded change) and the pushed results. -/
structure ResolveLoopState where
  s : ResolutionCacheState
  resolutionsInFile : ResolutionMap
  perDirectoryResolution : ResolutionMap
  seenNamesInFile : List String
  logChanges : Bool
  results : List (Option Path)
deriving DecidableEq

/-- One iteration of the name loop in `resolveNamesWithLocalCache`.  The
branch condition transcribes
`!seenNamesInFile.has(name) && allFilesHaveInvalidatedResolution || !resolution || resolution.isInvalidated`
with JS precedence (`&&` binds tighter than `||`).
`resolution.failedLookupLocations` is always an array, hence truthy, so the
watch bookkeeping is: diff against the existing resolution when there is one,
else watch from index 0.  (`Debug.assert` calls are not modelled.) -/
def resolveOneName (host : ResolutionCacheHost) (loader : String → Resolution)
    (containingPath : Path) (ls : ResolveLoopState) (name : String) :
    ResolveLoopState :=
  let existing? := alGet ls.resolutionsInFile name
  let existingInvalid :=
    match existing? with
    | some rid => (getRec ls.s.heap rid).isInvalidated
    | none => false
  if (!(ls.seenNamesInFile.contains name) && ls.s.allFilesHaveInvalidatedResolution)
      || existing?.isNone || existingInvalid then
    -- re-resolve through the per-directory cache or the loader
    let hit := alGet ls.perDirectoryResolution name
    let rid := match hit with
      | some ridInDir => ridInDir
      | none => ls.s.nextRecId
    let s1 := match hit with
      | some _ => ls.s
      | none =>
          { ls.s with heap := alSet ls.s.heap ls.s.nextRecId (loader name),
                      nextRecId := ls.s.nextRecId + 1 }
    let perDir1 := match hit with
      | some _ => ls.perDirectoryResolution
      | none => alSet ls.perDirectoryResolution name ls.s.nextRecId
    let resolutionsInFile1 := alSet ls.resolutionsInFile name rid
    let s2 := match existing? with
      | some exId => watchAndStopWatchDiffFailedLookupLocations host s1 rid exId
      | none => watchFailedLookupLocationOfResolution host s1 rid 0
    let pushChange :=
      ls.logChanges && s2.filesWithChangedSetOfUnresolvedImports.isSome
        && !(resolutionIsEqualTo s2.heap existing? (some rid))
    let s3 :=
      if pushChange then
        let changed := s2.filesWithChangedSetOfUnresolvedImports.map
          (fun l => l ++ [containingPath])
        { s2 with filesWithChangedSetOfUnresolvedImports := changed }
      else s2
    { s := s3
      resolutionsInFile := resolutionsInFile1
      perDirectoryResolution := perDir1
      seenNamesInFile := ls.seenNamesInFile ++ [name]
      logChanges := if pushChange then false else ls.logChanges
      results := ls.results ++ [(getRec s3.heap rid).resolvedFileName?] }
  else
    let result := match existing? with
      | some rid => (getRec ls.s.heap rid).resolvedFileName?
      | none => none
    { ls with
      seenNamesInFile := ls.seenNamesInFile ++ [name]
      results := ls.results ++ [result] }

/-- `resolveNamesWithLocalCache(names, containingFile, cache,
perDirectoryCache, loader, ..., reusedNames, logChanges)`: run the name loop,
then stop watching and drop the names that were neither requested nor in
`reusedNames`, and write the local views back to the maps. -/
def resolveNamesWithLocalCache (host : ResolutionCacheHost)
    (kind : CacheKind) (loader : String → Resolution) (names : List String)
    (containingFile : Path) (reusedNames : Option (List String))
    (logChanges : Bool) (s : ResolutionCacheState) :
    List (Option Path) × ResolutionCacheState :=
  let path := containingFile
  let resolutionsInFile := (alGet (getCacheOf s kind) path).getD []
  let dirPath := getDirectoryPath path
  let perDirectoryResolution := (alGet (getPerDirCacheOf s kind) dirPath).getD []
  let ls1 := names.foldl (resolveOneName host loader path)
    ⟨s, resolutionsInFile, perDirectoryResolution, [], logChanges, []⟩
  -- stop watching and remove the unused names
  let evicted := ls1.resolutionsInFile.filter
    (fun nr => !(ls1.seenNamesInFile.contains nr.1)
      && !(containsOpt reusedNames nr.1))
  let s2 := evicted.foldl
    (fun st nr => stopWatchFailedLookupLocationOfResolution host st nr.2) ls1.s
  let kept := ls1.resolutionsInFile.filter
    (fun nr => ls1.seenNamesInFile.contains nr.1 || containsOpt reusedNames nr.1)
  let s3 := setCacheOf s2 kind (alSet (getCacheOf s2 kind) path kept)
  let s4 := setPerDirCacheOf s3 kind
    (alSet (getPerDirCacheOf s3 kind) dirPath ls1.perDirectoryResolution)
  (ls1.results, s4)

/-- `resolveModuleNames(moduleNames, containingFile, reusedNames, logChanges)`.
The loader stands for `resolveModuleName` against a fixed file system. -/
def resolveModuleNames (host : ResolutionCacheHost)
    (loader : String → Resolution) (moduleNames : List String)
    (containingFile : Path) (reusedNames : Option (List String))
    (logChanges : Bool) (s : ResolutionCacheState) :
    List (Option Path) × ResolutionCacheState :=
  resolveNamesWithLocalCache host .modules loader moduleNames containingFile
    reusedNames logChanges s

/-- `resolveTypeReferenceDirectives(typeDirectiveNames, containingFile)`:
fixed `reusedNames = undefined`, `logChanges = false`. -/
def resolveTypeReferenceDirectives (host : ResolutionCacheHost)
    (loader : String → Resolution) (typeDirectiveNames : List String)
    (containingFile : Path) (s : ResolutionCacheState) :
    List (Option Path) × ResolutionCacheState :=
  resolveNamesWithLocalCache host .typeRefs loader typeDirectiveNames
    containingFile none false s

/-- `startRecordingFilesWithChangedResolutions()`. -/
def startRecordingFilesWithChangedResolutions (s : ResolutionCacheState) :
    ResolutionCacheState :=
  { s with filesWithChangedSetOfUnresolvedImports := some [] }

/-- `finishRecordingFilesWithChangedResolutions()`. -/
def finishRecordingFilesWithChangedResolutions (s : ResolutionCacheState) :
    Option (List Path) × ResolutionCacheState :=
  (s.filesWithChangedSetOfUnresolvedImports,
   { s with filesWithChangedSetOfUnresolvedImports := none })

/-!  ### The `Project` class (graph versioning, change reporting, missing
files)

The checker/builder (`languageService.getProgram()`), the typings cache and
the script-info registry are external collaborators; one `updateGraph` pass
consumes their outputs through a `GraphUpdateOracle`.  Only the fields the
verified operations read or write are modelled. -/

/-- External inputs consumed by one `updateGraph()` pass. -/
structure GraphUpdateOracle where
  /-- result of the first `updateGraphWorker()` call: the program's set of
  files changed (old program missing, or structure not completely reused) -/
  workerHasChanges : Bool
  /-- `finishRecordingFilesWithChangedResolutions()` for this pass -/
  changedFiles : List Path
  /-- `toDeduplicatedSortedArray(result)` when unresolved imports are
  recollected -/
  unresolvedImportsList : List String
  /-- `typingsCache.getTypingsForProject(...)` -/
  cachedTypings : List String
  /-- result of the second `updateGraphWorker()` call (run only when
  `setTypings` reported a change) -/
  workerHasChanges2 : Bool
deriving DecidableEq

/-- The modelled fields of `Project` (initial values as declared in the
class: both versions `0`, the report bookkeeping undefined). -/
structure ProjectState where
  projectStructureVersion : Nat
  projectStateVersion : Nat
  languageServiceEnabled : Bool
  typingFiles : List String
  lastCachedUnresolvedImportsList : Option (List String)
  lastReportedFileNames : Option (List String)
  lastReportedVersion : Nat
  updatedFileNames : Option (List String)
deriving DecidableEq

/-- `markAsDirty()`: bump only the state version. -/
def markAsDirty (p : ProjectState) : ProjectState :=
  { p with projectStateVersion := p.projectStateVersion + 1 }

/-- `registerFileUpdate(fileName)`. -/
def registerFileUpdate (p : ProjectState) (fileName : String) : ProjectState :=
  let updated := (p.updatedFileNames.getD []) ++ [fileName]
  { p with updatedFileNames := some updated }

/-- `setTypings(typings)`: `false` when unchanged, else store and mark dirty. -/
def setTypings (p : ProjectState) (typings : List String) :
    Bool × ProjectState :=
  if p.typingFiles = typings then (false, p)
  else (true, markAsDirty { p with typingFiles := typings })

/-- `if (hasChanges) this.projectStructureVersion++`. -/
def bumpStructureVersion (hasChanges : Bool) (p : ProjectState) : ProjectState :=
  if hasChanges then
    { p with projectStructureVersion := p.projectStructureVersion + 1 }
  else p

/-- `updateGraph()`, returning `(unchanged?, state)` — the source returns
`!hasChanges`.  The resolution-cache bracketing
(`startRecordingFilesWithChangedResolutions`, `createHasInvalidatedResolution`,
per-directory caching inside `updateGraphWorker`) acts on the cache state; its
outputs enter here through the oracle.  `cachedUnresolvedImportsPerFile`
eviction and the builder update have no effect on the modelled fields. -/
def updateGraph (o : GraphUpdateOracle) (p : ProjectState) :
    Bool × ProjectState :=
  let hasChanges := o.workerHasChanges
  if p.languageServiceEnabled then
    let p1 :=
      if hasChanges || !(o.changedFiles.isEmpty) then
        { p with lastCachedUnresolvedImportsList := some o.unresolvedImportsList }
      else p
    let st := setTypings p1 o.cachedTypings
    let hasChanges2 :=
      if st.1 then o.workerHasChanges2 || hasChanges else hasChanges
    (!hasChanges2, bumpStructureVersion hasChanges2 st.2)
  else
    (!hasChanges, bumpStructureVersion hasChanges
      { p with lastCachedUnresolvedImportsList := none })

/-- The `ProjectFilesWithTSDiagnostics` payload of `getChangesSinceVersion`
(diagnostics and the constant info fields elided): the reported structure
version, the full file list (when the caller's version was unknown), and the
`added` / `removed` / `updated` delta (when a delta was computed). -/
structure ProjectChanges where
  version : Nat
  files : Option (List String)
  added : Option (List String)
  removed : Option (List String)
  updated : Option (List String)
deriving DecidableEq

/-- `getChangesSinceVersion(lastKnownVersion)`.  `fileNames` stands for
`getFileNames()` and `externalFiles` for the normalized `getExternalFiles()`,
both read after the initial `updateGraph()`; lists stand for the JS sets
(`arrayToSet`). -/
def getChangesSinceVersion (o : GraphUpdateOracle)
    (fileNames externalFiles : List String) (lastKnownVersion : Option Nat)
    (p : ProjectState) : ProjectChanges × ProjectState :=
  let p1 := (updateGraph o p).2
  let version := p1.projectStructureVersion
  let updatedFileNames := p1.updatedFileNames
  let p2 := { p1 with updatedFileNames := none }
  match p2.lastReportedFileNames with
  | some lastReported =>
      if lastKnownVersion = some p2.lastReportedVersion then
        if p2.projectStructureVersion = p2.lastReportedVersion
            && updatedFileNames.isNone then
          -- current structure version is the same: info without any changes
          (⟨version, none, none, none, none⟩, p2)
        else
          -- compute and return the difference
          let currentFiles := fileNames ++ externalFiles
          let added := currentFiles.filter (fun f => !(lastReported.contains f))
          let removed := lastReported.filter (fun f => !(currentFiles.contains f))
          let updated := updatedFileNames.getD []
          (⟨version, none, some added, some removed, some updated⟩,
           { p2 with lastReportedFileNames := some currentFiles,
                     lastReportedVersion := p2.projectStructureVersion })
      else
        -- unknown version: return everything
        let allFiles := fileNames ++ externalFiles
        (⟨version, some allFiles, none, none, none⟩,
         { p2 with lastReportedFileNames := some allFiles,
                   lastReportedVersion := p2.projectStructureVersion })
  | none =>
      let allFiles := fileNames ++ externalFiles
      (⟨version, some allFiles, none, none, none⟩,
       { p2 with lastReportedFileNames := some allFiles,
                 lastReportedVersion := p2.projectStructureVersion })

/-- The public `Project` operations that are modelled, for statements about
operation sequences. -/
inductive ProjectOp
  | updateGraphOp (o : GraphUpdateOracle)
  | getChangesSinceVersionOp (o : GraphUpdateOracle)
      (fileNames externalFiles : List String) (lastKnownVersion : Option Nat)
  | markAsDirtyOp
  | registerFileUpdateOp (fileName : String)
  | setTypingsOp (typings : List String)

/-- Apply one public operation to the project state. -/
def applyProjectOp (p : ProjectState) : ProjectOp → ProjectState
  | .updateGraphOp o => (updateGraph o p).2
  | .getChangesSinceVersionOp o fns exts v =>
      (getChangesSinceVersion o fns exts v p).2
  | .markAsDirtyOp => markAsDirty p
  | .registerFileUpdateOp f => registerFileUpdate p f
  | .setTypingsOp t => (setTypings p t).2

/-!  ### Missing-file watches and `fileExists`  -/

/-- `FileWatcherEventKind`. -/
inductive FileWatcherEventKind
  | Created
  | Changed
  | Deleted
deriving DecidableEq

/-- `isWatchedMissingFile(path)`: `missingFilesMap && missingFilesMap.has(path)`
(the map is `none` until the first missing file is watched). -/
def isWatchedMissingFile (missingFilesMap : Option (List Path)) (path : Path) :
    Bool :=
  match missingFilesMap with
  | some m => m.contains path
  | none => false

/-- `Project.fileExists(file)`: don't hit the disk for files known missing
(`!isWatchedMissingFile(path) && directoryStructureHost.fileExists(file)`);
`hostFileExists` stands for the host probe, `toPath` is the identity on the
already-canonical paths of this model. -/
def fileExists (missingFilesMap : Option (List Path))
    (hostFileExists : Path → Bool) (file : Path) : Bool :=
  !(isWatchedMissingFile missingFilesMap file) && hostFileExists file

/-- The missing-file watcher callback of `addMissingFileWatcher`, restricted
to its effect on the map: on a `Created` event for a still-watched path,
delete the path (and close the watcher, schedule a graph update). -/
def missingFileWatcherCallback (missingFilesMap : Option (List Path))
    (eventKind : FileWatcherEventKind) (missingFilePath : Path) :
    Option (List Path) :=
  match missingFilesMap with
  | some m =>
      if eventKind = .Created && m.contains missingFilePath then
        some (m.filter (fun q => !(q = missingFilePath : Bool)))
      else some m
  | none => none

/-!  ## Association-list lemmas  -/

theorem alGet_alSet_self {α β : Type} [DecidableEq α] (m : List (α × β))
    (k : α) (v : β) : alGet (alSet m k v) k = some v := by
  induction m with
  | nil => simp [alSet, alGet]
  | cons e rest ih =>
      obtain ⟨a, b⟩ := e
      by_cases h : a = k
      · simp [alSet, alGet, h]
      · simp [alSet, alGet, h, ih]

theorem alGet_alSet_ne {α β : Type} [DecidableEq α] (m : List (α × β))
    (k k' : α) (v : β) (h : k' ≠ k) :
    alGet (alSet m k v) k' = alGet m k' := by
  have hkk : ¬(k = k') := by
    intro hh
    exact h hh.symm
  induction m with
  | nil => simp [alSet, alGet, hkk]
  | cons e rest ih =>
      obtain ⟨a, b⟩ := e
      by_cases he : a = k
      · subst he
        simp [alSet, alGet, hkk]
      · simp [alSet, alGet, he, ih]

theorem alGet_eq_none_of_not_mem_keys {α β : Type} [DecidableEq α]
    (m : List (α × β)) (k : α) (h : k ∉ m.map Prod.fst) : alGet m k = none := by
  induction m with
  | nil => simp [alGet]
  | cons e rest ih =>
      obtain ⟨a, b⟩ := e
      rw [List.map_cons, List.mem_cons] at h
      push_neg at h
      have hne : ¬(a = k) := by
        intro hh
        exact h.1 hh.symm
      simp [alGet, hne, ih h.2]

theorem alGet_mem {α β : Type} [DecidableEq α] (m : List (α × β)) (k : α)
    (v : β) (h : alGet m k = some v) : (k, v) ∈ m := by
  induction m with
  | nil => simp [alGet] at h
  | cons e rest ih =>
      obtain ⟨a, b⟩ := e
      by_cases he : a = k
      · subst he
        simp [alGet] at h
        subst h
        exact List.mem_cons_self _ _
      · simp [alGet, he] at h
        exact List.mem_cons_of_mem _ (ih h)

theorem alGet_filter_key {α β : Type} [DecidableEq α] (m : List (α × β))
    (q : α → Bool) (k : α) :
    alGet (m.filter (fun e => q e.1)) k =
      (if q k then alGet m k else none) := by
  induction m with
  | nil => simp [alGet]
  | cons e rest ih =>
      obtain ⟨a, b⟩ := e
      by_cases hq : q a
      · by_cases he : a = k
        · subst he
          simp [List.filter_cons, hq, alGet]
        · simp [List.filter_cons, hq, alGet, he, ih]
      · by_cases he : a = k
        · subst he
          simp [List.filter_cons, hq, alGet, ih]
        · simp [List.filter_cons, hq, alGet, he, ih]

theorem alGet_filter_of_mem_val {α β : Type} [DecidableEq α]
    (m : List (α × β)) (p : α × β → Bool) (k : α) (v : β)
    (h : alGet (m.filter p) k = some v) : p (k, v) = true := by
  induction m with
  | nil => simp [alGet] at h
  | cons e rest ih =>
      obtain ⟨a, b⟩ := e
      by_cases hp : p (a, b)
      · by_cases he : a = k
        · subst he
          simp [List.filter_cons, hp, alGet] at h
          subst h
          exact hp
        · simp [List.filter_cons, hp, alGet, he] at h
          exact ih h
      · simp [List.filter_cons, hp] at h
        exact ih h

theorem alGet_filter_none {α β : Type} [DecidableEq α] (m : List (α × β))
    (p : α × β → Bool) (k : α) (v : β) (hnd : (m.map Prod.fst).Nodup)
    (h : alGet m k = some v) (hv : p (k, v) = false) :
    alGet (m.filter p) k = none := by
  induction m with
  | nil => simp [alGet] at h
  | cons e rest ih =>
      obtain ⟨a, b⟩ := e
      rw [List.map_cons, List.nodup_cons] at hnd
      by_cases he : a = k
      · subst he
        simp [alGet] at h
        subst h
        simp [List.filter_cons, hv]
        apply alGet_eq_none_of_not_mem_keys
        intro hmem
        rw [List.mem_map] at hmem
        obtain ⟨e', he', hfst⟩ := hmem
        rw [List.mem_filter] at he'
        exact hnd.1 (List.mem_map.mpr ⟨e', he'.1, hfst⟩)
      · simp [alGet, he] at h
        by_cases hp : p (a, b)
        · simp [List.filter_cons, hp, alGet, he]
          exact ih hnd.2 h
        · simp [List.filter_cons, hp]
          exact ih hnd.2 h

theorem map_fst_alSet {α β : Type} [DecidableEq α] (m : List (α × β))
    (k : α) (v w : β) (h : alGet m k = some w) :
    (alSet m k v).map Prod.fst = m.map Prod.fst := by
  induction m with
  | nil => simp [alGet] at h
  | cons e rest ih =>
      obtain ⟨a, b⟩ := e
      by_cases he : a = k
      · simp [alSet, he]
      · simp [alGet, he] at h
        simp [alSet, he, ih h]

/-- The freshly-created cache state: empty maps, counters at zero. -/
def emptyRCState : ResolutionCacheState :=
  { heap := []
    nextRecId := 0
    resolvedModuleNames := []
    resolvedTypeReferenceDirectives := []
    perDirectoryResolvedModuleNames := []
    perDirectoryResolvedTypeReferenceDirectives := []
    filesWithChangedSetOfUnresolvedImports := none
    filesWithInvalidatedResolutions := none
    allFilesHaveInvalidatedResolution := false
    customFailedLookupPaths := []
    directoryWatchesOfFailedLookups := []
    nextWatcherId := 0
    closedWatchers := [] }

/-!  ## C10: `fileExists` and missing-file watches  -/

/-- C10: for every path in the missing-file watch map, `Project.fileExists`
returns `false` without consulting the host file system (the result is the
same for any host probe, even one that says the file now exists); after the
watch callback processes a `Created` event and removes the path,
`fileExists` consults the host again. -/
theorem fileExists_false_of_watched_missing (m : List Path)
    (hostFS hostFS' : Path → Bool) (file : Path) (h : file ∈ m) :
    fileExists (some m) hostFS file = false ∧
    fileExists (some m) hostFS file = fileExists (some m) hostFS' file ∧
    fileExists (missingFileWatcherCallback (some m) .Created file) hostFS file
      = hostFS file := by
  have hc : m.contains file = true := by
    simpa using h
  refine ⟨?_, ?_, ?_⟩
  · simp [fileExists, isWatchedMissingFile, h]
  · simp [fileExists, isWatchedMissingFile, h]
  · have hcallback : missingFileWatcherCallback (some m) .Created file
        = some (m.filter (fun q => !(q = file : Bool))) := by
      simp [missingFileWatcherCallback, hc, h]
    rw [hcallback]
    simp [fileExists, isWatchedMissingFile, List.mem_filter]

/-- Witness for the C10 theorem at a concrete input. -/
theorem fileExists_false_of_watched_missing_witness :
    fileExists (some [["a", "b.ts"]]) (fun _ => true) ["a", "b.ts"] = false :=
  (fileExists_false_of_watched_missing [["a", "b.ts"]] (fun _ => true)
    (fun _ => false) ["a", "b.ts"] (by decide)).1

/-!  ## C5: `finishCachingPerDirectoryResolution`  -/

/-- C5: after `finishCachingPerDirectoryResolution` the two per-directory
maps are empty, every surviving directory watch has nonzero ref count, and
every entry whose ref count was 0 at finish time has been removed from the
map and its handle closed (for the removal precision the watch map is assumed
well formed: no duplicate keys). -/
theorem finishCachingPerDirectoryResolution_spec (s : ResolutionCacheState)
    (hnd : (s.directoryWatchesOfFailedLookups.map Prod.fst).Nodup) :
    (finishCachingPerDirectoryResolution s).perDirectoryResolvedModuleNames = [] ∧
    (finishCachingPerDirectoryResolution s).perDirectoryResolvedTypeReferenceDirectives = [] ∧
    (∀ d w, alGet (finishCachingPerDirectoryResolution s).directoryWatchesOfFailedLookups d
        = some w → w.refCount ≠ 0) ∧
    (∀ d w, alGet s.directoryWatchesOfFailedLookups d = some w → w.refCount = 0 →
      alGet (finishCachingPerDirectoryResolution s).directoryWatchesOfFailedLookups d = none ∧
      w.watcherId ∈ (finishCachingPerDirectoryResolution s).closedWatchers) := by
  refine ⟨rfl, rfl, ?_, ?_⟩
  · intro d w h
    have := alGet_filter_of_mem_val _ _ _ _ h
    simp at this
    exact this
  · intro d w h h0
    constructor
    · exact alGet_filter_none _ _ _ _ hnd h (by simp [h0])
    · have hmem : (d, w) ∈ s.directoryWatchesOfFailedLookups := alGet_mem _ _ _ h
      have hmemf : (d, w) ∈ s.directoryWatchesOfFailedLookups.filter
          (fun e => (e.2.refCount = 0 : Bool)) := by
        rw [List.mem_filter]
        exact ⟨hmem, by simp [h0]⟩
      simp only [finishCachingPerDirectoryResolution, List.mem_append]
      right
      exact List.mem_map.mpr ⟨(d, w), hmemf, rfl⟩

/-- Witness for the C5 theorem at a concrete input. -/
theorem finishCachingPerDirectoryResolution_spec_witness :
    alGet (finishCachingPerDirectoryResolution
        { emptyRCState with
          directoryWatchesOfFailedLookups := [(["a"], ⟨3, 0⟩), (["b"], ⟨4, 2⟩)] }).directoryWatchesOfFailedLookups
      ["a"] = none ∧
    3 ∈ (finishCachingPerDirectoryResolution
        { emptyRCState with
          directoryWatchesOfFailedLookups := [(["a"], ⟨3, 0⟩), (["b"], ⟨4, 2⟩)] }).closedWatchers :=
  (finishCachingPerDirectoryResolution_spec
      { emptyRCState with
        directoryWatchesOfFailedLookups := [(["a"], ⟨3, 0⟩), (["b"], ⟨4, 2⟩)] }
      (by decide)).2.2.2 ["a"] ⟨3, 0⟩ (by decide) (by decide)

/-!  ## C4: the ref-count invariant between public operations  -/

/-- `stopWatchCustomPath` only rewrites the custom-path table. -/
theorem stopWatchCustomPath_shape (s : ResolutionCacheState) (loc : Path) :
    ∃ c, stopWatchCustomPath s loc = { s with customFailedLookupPaths := c } := by
  unfold stopWatchCustomPath
  rcases h : alGet s.customFailedLookupPaths loc with _ | c
  · exact ⟨s.customFailedLookupPaths, rfl⟩
  · simp only [h]
    split_ifs
    · exact ⟨s.customFailedLookupPaths, rfl⟩
    · exact ⟨_, rfl⟩
    · exact ⟨_, rfl⟩

/-- `watchCustomPath` only rewrites the custom-path table. -/
theorem watchCustomPath_shape (s : ResolutionCacheState) (loc : Path) :
    ∃ c, watchCustomPath s loc = { s with customFailedLookupPaths := c } := by
  unfold watchCustomPath
  split_ifs
  · exact ⟨s.customFailedLookupPaths, rfl⟩
  · exact ⟨_, rfl⟩

/-- `stopWatchDirOfFailedLookup` only rewrites the watch map, preserving its
key set (a decrement in place, or the crash-in-source no-op). -/
theorem stopWatchDir_shape (host : ResolutionCacheHost)
    (s : ResolutionCacheState) (loc : Path) :
    ∃ w, stopWatchDirOfFailedLookup host s loc
        = { s with directoryWatchesOfFailedLookups := w } ∧
      w.map Prod.fst = s.directoryWatchesOfFailedLookups.map Prod.fst := by
  unfold stopWatchDirOfFailedLookup
  rcases h : alGet s.directoryWatchesOfFailedLookups
      (getDirectoryToWatchFailedLookupLocation host.rootPath loc) with _ | dw
  · exact ⟨s.directoryWatchesOfFailedLookups, rfl, rfl⟩
  · refine ⟨alSet s.directoryWatchesOfFailedLookups
        (getDirectoryToWatchFailedLookupLocation host.rootPath loc)
        { dw with refCount := dw.refCount - 1 }, ?_, map_fst_alSet _ _ _ _ h⟩
    simp only [h]

/-- `watchDirOfFailedLookup` only rewrites the watch map and the
fresh-handle counter. -/
theorem watchDir_shape (host : ResolutionCacheHost)
    (s : ResolutionCacheState) (loc : Path) :
    ∃ w n, watchDirOfFailedLookup host s loc
        = { s with directoryWatchesOfFailedLookups := w, nextWatcherId := n } := by
  unfold watchDirOfFailedLookup
  rcases h : alGet s.directoryWatchesOfFailedLookups
      (getDirectoryToWatchFailedLookupLocation host.rootPath loc) with _ | dw
  · exact ⟨_, _, rfl⟩
  · refine ⟨alSet s.directoryWatchesOfFailedLookups
        (getDirectoryToWatchFailedLookupLocation host.rootPath loc)
        { watcherId := dw.watcherId, refCount := dw.refCount + 1 },
      s.nextWatcherId, ?_⟩
    simp only [h]

/-- `stopWatchOneFailedLookupLocation` never removes a watch entry and never
closes a handle: only ref counts change. -/
theorem stopWatchOne_keys (host : ResolutionCacheHost)
    (s : ResolutionCacheState) (loc : Path) :
    ((stopWatchOneFailedLookupLocation host s loc).directoryWatchesOfFailedLookups.map Prod.fst
      = s.directoryWatchesOfFailedLookups.map Prod.fst) ∧
    (stopWatchOneFailedLookupLocation host s loc).closedWatchers
      = s.closedWatchers := by
  obtain ⟨c, hc⟩ := stopWatchCustomPath_shape s loc
  obtain ⟨w, hw, hkeys⟩ := stopWatchDir_shape host (stopWatchCustomPath s loc) loc
  unfold stopWatchOneFailedLookupLocation
  rw [hw, hc] at *
  exact ⟨hkeys, rfl⟩

/-- The fold of `stopWatchOneFailedLookupLocation` over any location list
preserves the watch keys and the closed handles. -/
theorem stopWatchFold_keys (host : ResolutionCacheHost) (locs : List Path)
    (s : ResolutionCacheState) :
    ((locs.foldl (stopWatchOneFailedLookupLocation host) s).directoryWatchesOfFailedLookups.map Prod.fst
      = s.directoryWatchesOfFailedLookups.map Prod.fst) ∧
    (locs.foldl (stopWatchOneFailedLookupLocation host) s).closedWatchers
      = s.closedWatchers := by
  induction locs generalizing s with
  | nil => exact ⟨rfl, rfl⟩
  | cons l rest ih =>
      rw [List.foldl_cons]
      refine ⟨?_, ?_⟩
      · rw [(ih _).1, (stopWatchOne_keys host s l).1]
      · rw [(ih _).2, (stopWatchOne_keys host s l).2]

/-- `stopWatchFailedLookupLocationOfResolution` preserves watch keys and
closed handles (it only decrements ref counts). -/
theorem stopWatchResolution_keys (host : ResolutionCacheHost)
    (s : ResolutionCacheState) (rid : RecId) :
    ((stopWatchFailedLookupLocationOfResolution host s rid).directoryWatchesOfFailedLookups.map Prod.fst
      = s.directoryWatchesOfFailedLookups.map Prod.fst) ∧
    (stopWatchFailedLookupLocationOfResolution host s rid).closedWatchers
      = s.closedWatchers := by
  unfold stopWatchFailedLookupLocationOfResolution
    stopWatchFailedLookupLocationOfResolutionFrom
  exact stopWatchFold_keys host _ s

/-- The fold of `stopWatchFailedLookupLocationOfResolution` over a file's
resolutions preserves watch keys and closed handles. -/
theorem stopWatchResolutionsFold_keys (host : ResolutionCacheHost)
    (resolutions : ResolutionMap) (s : ResolutionCacheState) :
    ((resolutions.foldl (fun st nr => stopWatchFailedLookupLocationOfResolution host st nr.2) s).directoryWatchesOfFailedLookups.map Prod.fst
      = s.directoryWatchesOfFailedLookups.map Prod.fst) ∧
    (resolutions.foldl (fun st nr => stopWatchFailedLookupLocationOfResolution host st nr.2) s).closedWatchers
      = s.closedWatchers := by
  induction resolutions generalizing s with
  | nil => exact ⟨rfl, rfl⟩
  | cons nr rest ih =>
      rw [List.foldl_cons]
      refine ⟨?_, ?_⟩
      · rw [(ih _).1, (stopWatchResolution_keys host s nr.2).1]
      · rw [(ih _).2, (stopWatchResolution_keys host s nr.2).2]

/-- C4 counterexample: the claim says every removal path that drops a
directory's ref count to zero removes the entry and releases the handle.  In
the state below, `/p/f.ts` holds the only resolution whose failed lookup
(`/a/x.ts`) is covered by the watch on `/a` (ref count 1).
`removeResolutionsOfFile("/p/f.ts")` drops that ref count to 0, yet the
entry stays in the map with ref count 0 and no handle is closed — the source
defers closing to `finishCachingPerDirectoryResolution`. -/
theorem removeResolutionsOfFile_leaves_zero_refCount :
    alGet (removeResolutionsOfFile ⟨none, none⟩
        { emptyRCState with
          heap := [(1, ⟨none, [["a", "x.ts"]], false⟩)]
          resolvedModuleNames := [(["p", "f.ts"], [("m", 1)])]
          directoryWatchesOfFailedLookups := [(["a"], ⟨7, 1⟩)] }
        ["p", "f.ts"]).directoryWatchesOfFailedLookups ["a"]
      = some ⟨7, 0⟩ ∧
    (removeResolutionsOfFile ⟨none, none⟩
        { emptyRCState with
          heap := [(1, ⟨none, [["a", "x.ts"]], false⟩)]
          resolvedModuleNames := [(["p", "f.ts"], [("m", 1)])]
          directoryWatchesOfFailedLookups := [(["a"], ⟨7, 1⟩)] }
        ["p", "f.ts"]).closedWatchers = [] := by
  decide

/-- C4 amended: removal paths only decrement ref counts — after
`removeResolutionsOfFile` the watch map has exactly the same keys and no
handle has been closed (so a zero-ref-count entry may persist) — and the
zero-ref-count entries are pruned at the next
`finishCachingPerDirectoryResolution`, after which every surviving entry has
nonzero ref count. -/
theorem removeResolutionsOfFile_defers_watch_close (host : ResolutionCacheHost)
    (s : ResolutionCacheState) (filePath : Path) :
    ((removeResolutionsOfFile host s filePath).directoryWatchesOfFailedLookups.map Prod.fst
      = s.directoryWatchesOfFailedLookups.map Prod.fst) ∧
    (removeResolutionsOfFile host s filePath).closedWatchers = s.closedWatchers ∧
    (∀ d w, alGet (finishCachingPerDirectoryResolution
        (removeResolutionsOfFile host s filePath)).directoryWatchesOfFailedLookups d
      = some w → w.refCount ≠ 0) := by
  have hstep : ∀ (cache : List (Path × ResolutionMap)) (st : ResolutionCacheState),
      (((removeResolutionsOfFileFromCache host cache st filePath).2).directoryWatchesOfFailedLookups.map Prod.fst
        = st.directoryWatchesOfFailedLookups.map Prod.fst) ∧
      ((removeResolutionsOfFileFromCache host cache st filePath).2).closedWatchers
        = st.closedWatchers := by
    intro cache st
    unfold removeResolutionsOfFileFromCache
    split
    next resolutions hres => exact stopWatchResolutionsFold_keys host resolutions st
    next => exact ⟨rfl, rfl⟩
  refine ⟨?_, ?_, ?_⟩
  · unfold removeResolutionsOfFile
    rw [(hstep _ _).1, (hstep _ _).1]
  · unfold removeResolutionsOfFile
    rw [(hstep _ _).2, (hstep _ _).2]
  · intro d w h
    have := alGet_filter_of_mem_val _ _ _ _ h
    simp at this
    exact this

/-!  ## C2: the invalidation iteration ceiling  -/

/-- C2 counterexample: the claim measures the ceiling "at the moment an
invalidation event is processed", but `invalidateResolutionOfFile` first
purges the deleted file's own cache entry and only then compares the size
with the ceiling.  With a host-supplied ceiling of 2 and three cached
containing files, deleting cached file `/f1` leaves 2 files — not over the
ceiling — so the next `createHasInvalidatedResolution()` returns the precise
predicate (here false on `/f1` itself), not an always-true one, even though
3 > 2 files were cached when the event arrived. -/
theorem createHasInvalidatedResolution_precise_at_ceiling :
    (({ emptyRCState with
        heap := [(1, ⟨none, [], false⟩), (2, ⟨none, [], false⟩),
          (3, ⟨none, [], false⟩)]
        resolvedModuleNames := [(["f1"], [("m", 1)]), (["f2"], [("m", 2)]),
          (["f3"], [("m", 3)])] } : ResolutionCacheState).resolvedModuleNames.length
      = 3) ∧
    hasReachedResolutionIterationLimit ⟨some 2, none⟩
      { emptyRCState with
        heap := [(1, ⟨none, [], false⟩), (2, ⟨none, [], false⟩),
          (3, ⟨none, [], false⟩)]
        resolvedModuleNames := [(["f1"], [("m", 1)]), (["f2"], [("m", 2)]),
          (["f3"], [("m", 3)])] } = true ∧
    (createHasInvalidatedResolution
        (invalidateResolutionOfFile ⟨some 2, none⟩
          { emptyRCState with
            heap := [(1, ⟨none, [], false⟩), (2, ⟨none, [], false⟩),
              (3, ⟨none, [], false⟩)]
            resolvedModuleNames := [(["f1"], [("m", 1)]), (["f2"], [("m", 2)]),
              (["f3"], [("m", 3)])] }
          ["f1"])).1 ["f1"] = false := by
  refine ⟨rfl, by decide, ?_⟩
  decide

/-- C2 amended: the ceiling is compared against the cache sizes *after* the
deleted file's own entries are purged; whenever that comparison still
exceeds the host ceiling (`maxNumberOfFilesToIterateForInvalidation || 256`),
the next `createHasInvalidatedResolution()` returns a predicate that is true
for every path. -/
theorem createHasInvalidatedResolution_returnTrue_over_ceiling
    (host : ResolutionCacheHost) (s : ResolutionCacheState) (filePath : Path)
    (h : hasReachedResolutionIterationLimit host
      (removeResolutionsOfFile host s filePath) = true) :
    ∀ q, (createHasInvalidatedResolution
        (invalidateResolutionOfFile host s filePath)).1 q = true := by
  intro q
  unfold invalidateResolutionOfFile invalidateResolutions
  rw [if_pos h]
  simp [createHasInvalidatedResolution]

/-- Witness for the amended C2 theorem at a concrete input (ceiling 1, two
cached containing files, deletion of a path that is not a containing file). -/
theorem createHasInvalidatedResolution_returnTrue_over_ceiling_witness :
    (createHasInvalidatedResolution
        (invalidateResolutionOfFile ⟨some 1, none⟩
          { emptyRCState with
            resolvedModuleNames := [(["f1"], []), (["f2"], [])] }
          ["zz"])).1 ["anything"] = true :=
  createHasInvalidatedResolution_returnTrue_over_ceiling ⟨some 1, none⟩
    { emptyRCState with resolvedModuleNames := [(["f1"], []), (["f2"], [])] }
    ["zz"] (by decide) ["anything"]

/-!  ## C6: the watch-placement algorithm  -/

/-- Taking at most all-but-one elements ignores `dropLast`. -/
theorem take_dropLast_eq (d : Path) (k : Nat) (h : k ≤ d.length - 1) :
    d.dropLast.take k = d.take k := by
  rw [List.dropLast_eq_take, List.take_take]
  congr 1
  omega

/-- A member of a list is its last element or a member of `dropLast`. -/
theorem mem_last_or_dropLast (d : Path) (a : String) (h : a ∈ d) :
    d.getLast? = some a ∨ a ∈ d.dropLast := by
  have hne : d ≠ [] := by
    rintro rfl
    simp at h
  rw [← List.dropLast_append_getLast hne] at h
  rcases List.mem_append.mp h with hdl | hlast
  · right
    exact hdl
  · left
    rw [List.getLast?_eq_getLast d hne]
    simp at hlast
    rw [hlast]

/-- When the directory already is a `node_modules` directory the walk stays
put. -/
theorem nodeModulesAncestorWalk_self (d : Path)
    (h : isNodeModulesDirectory d = true) : nodeModulesAncestorWalk d = d := by
  rw [nodeModulesAncestorWalk]
  simp [h]

/-- The `node_modules` walk computes the nearest `node_modules` ancestor:
its result is a prefix of the input ending in the `node_modules` segment, and
no longer prefix of the input ends in that segment. -/
theorem nodeModulesAncestorWalk_spec : ∀ (n : Nat) (d : Path),
    d.length ≤ n → "node_modules" ∈ d →
    d.take (nodeModulesAncestorWalk d).length = nodeModulesAncestorWalk d ∧
    (nodeModulesAncestorWalk d).getLast? = some "node_modules" ∧
    ∀ k, (nodeModulesAncestorWalk d).length < k → k ≤ d.length →
      (d.take k).getLast? ≠ some "node_modules" := by
  intro n
  induction n with
  | zero =>
      intro d hlen hmem
      have : d = [] := List.length_eq_zero.mp (Nat.le_zero.mp hlen)
      subst this
      simp at hmem
  | succ n ih =>
      intro d hlen hmem
      by_cases hnm : isNodeModulesDirectory d = true
      · have hw : nodeModulesAncestorWalk d = d := nodeModulesAncestorWalk_self d hnm
        rw [hw]
        refine ⟨List.take_length _, ?_, ?_⟩
        · simpa [isNodeModulesDirectory] using hnm
        · intro k hk1 hk2
          omega
      · have hne : d ≠ [] := by
          rintro rfl
          simp at hmem
        have hw : nodeModulesAncestorWalk d = nodeModulesAncestorWalk d.dropLast := by
          rw [nodeModulesAncestorWalk]
          simp [hnm, hne]
        have hmem' : "node_modules" ∈ d.dropLast := by
          rcases mem_last_or_dropLast d _ hmem with hlast | hdl
          · exact absurd (by simp [isNodeModulesDirectory, hlast]) hnm
          · exact hdl
        have hlen' : d.dropLast.length ≤ n := by
          have := List.length_pos.mpr hne
          simp [List.length_dropLast]
          omega
        obtain ⟨ih1, ih2, ih3⟩ := ih d.dropLast hlen' hmem'
        have hwlen : (nodeModulesAncestorWalk d.dropLast).length ≤ d.dropLast.length := by
          have := congrArg List.length ih1
          simp [List.length_take, List.length_dropLast] at this ⊢
          omega
        have hdll : d.dropLast.length = d.length - 1 := by
          simp [List.length_dropLast]
        rw [hw]
        refine ⟨?_, ih2, ?_⟩
        · rw [← take_dropLast_eq d _ (by omega)]
          exact ih1
        · intro k hk1 hk2
          by_cases hkd : k ≤ d.length - 1
          · rw [← take_dropLast_eq d k hkd]
            exact ih3 k hk1 (by omega)
          · have hk : k = d.length := by omega
            subst hk
            rw [List.take_length]
            intro hcontra
            exact hnm (by simp [isNodeModulesDirectory, hcontra])

/-- The ancestor-of-root walk stops at the longest prefix of the input that
is a strict ancestor of the project root (or at the filesystem root when no
prefix is): its result is a prefix, it is an ancestor of the root or empty,
and no longer prefix of the input is an ancestor of the root. -/
theorem ancestorOfRootWalk_spec : ∀ (n : Nat) (root d : Path), d.length ≤ n →
    d.take (ancestorOfRootWalk root d).length = ancestorOfRootWalk root d ∧
    (isInDirectoryPath (ancestorOfRootWalk root d) root = true ∨
      ancestorOfRootWalk root d = []) ∧
    ∀ k, (ancestorOfRootWalk root d).length < k → k ≤ d.length →
      isInDirectoryPath (d.take k) root = false := by
  intro n
  induction n with
  | zero =>
      intro root d hlen
      have hnil : d = [] := List.length_eq_zero.mp (Nat.le_zero.mp hlen)
      subst hnil
      have hw : ancestorOfRootWalk root [] = [] := by
        rw [ancestorOfRootWalk]
        simp [isInDirectoryPath]
      rw [hw]
      refine ⟨rfl, Or.inr rfl, ?_⟩
      intro k hk1 hk2
      omega
  | succ n ih =>
      intro root d hlen
      by_cases hin : isInDirectoryPath d root = true
      · have hw : ancestorOfRootWalk root d = d := by
          rw [ancestorOfRootWalk]
          simp [hin]
        rw [hw]
        refine ⟨List.take_length _, Or.inl hin, ?_⟩
        intro k hk1 hk2
        omega
      · by_cases hne : d = []
        · subst hne
          have hw : ancestorOfRootWalk root [] = [] := by
            rw [ancestorOfRootWalk]
            simp [isInDirectoryPath]
          rw [hw]
          refine ⟨rfl, Or.inr rfl, ?_⟩
          intro k hk1 hk2
          omega
        · have hdne : d.dropLast ≠ d := by
            intro hh
            have h1 := congrArg List.length hh
            have := List.length_pos.mpr hne
            simp [List.length_dropLast] at h1
            omega
          have hw : ancestorOfRootWalk root d = ancestorOfRootWalk root d.dropLast := by
            rw [ancestorOfRootWalk]
            simp [hin, hdne]
          have hlen' : d.dropLast.length ≤ n := by
            have := List.length_pos.mpr hne
            simp [List.length_dropLast]
            omega
          obtain ⟨ih1, ih2, ih3⟩ := ih root d.dropLast hlen'
          have hwlen : (ancestorOfRootWalk root d.dropLast).length ≤ d.dropLast.length := by
            have := congrArg List.length ih1
            simp [List.length_take, List.length_dropLast] at this ⊢
            omega
          have hdll : d.dropLast.length = d.length - 1 := by
            simp [List.length_dropLast]
          rw [hw]
          refine ⟨?_, ih2, ?_⟩
          · rw [← take_dropLast_eq d _ (by omega)]
            exact ih1
          · intro k hk1 hk2
            by_cases hkd : k ≤ d.length - 1
            · rw [← take_dropLast_eq d k hkd]
              exact ih3 k hk1 (by omega)
            · have hk : k = d.length := by omega
              subst hk
              rw [List.take_length]
              simpa using hin

/-- C6: the watch-placement priority.  For a failed lookup path `p` with
`dirPath` its containing directory: (1) if `p` lies strictly under the
project root, the root is watched; (2) otherwise, if `p` traverses a
`node_modules` segment, the nearest `node_modules` ancestor of `dirPath` is
watched (a prefix of `dirPath` ending in `node_modules`, with no longer such
prefix); (3) otherwise the watched directory is the longest prefix of
`dirPath` that is a strict ancestor of the root, walking up to the
filesystem root when there is none. -/
theorem getDirectoryToWatchFailedLookupLocation_spec (root : Option Path)
    (p : Path) :
    (∀ r, root = some r → isInDirectoryPath r p = true →
      getDirectoryToWatchFailedLookupLocation root p = r) ∧
    (isInDirectoryPathOpt root p = false →
      "node_modules" ∈ getDirectoryPath p →
      (getDirectoryPath p).take (getDirectoryToWatchFailedLookupLocation root p).length
          = getDirectoryToWatchFailedLookupLocation root p ∧
        (getDirectoryToWatchFailedLookupLocation root p).getLast?
          = some "node_modules" ∧
        ∀ k, (getDirectoryToWatchFailedLookupLocation root p).length < k →
          k ≤ (getDirectoryPath p).length →
          ((getDirectoryPath p).take k).getLast? ≠ some "node_modules") ∧
    (∀ r, root = some r → isInDirectoryPath r p = false →
      "node_modules" ∉ getDirectoryPath p →
      (getDirectoryPath p).take (getDirectoryToWatchFailedLookupLocation root p).length
          = getDirectoryToWatchFailedLookupLocation root p ∧
        (isInDirectoryPath (getDirectoryToWatchFailedLookupLocation root p) r = true ∨
          getDirectoryToWatchFailedLookupLocation root p = []) ∧
        ∀ k, (getDirectoryToWatchFailedLookupLocation root p).length < k →
          k ≤ (getDirectoryPath p).length →
          isInDirectoryPath ((getDirectoryPath p).take k) r = false) := by
  refine ⟨?_, ?_, ?_⟩
  · intro r hr hin
    subst hr
    unfold getDirectoryToWatchFailedLookupLocation
    simp [isInDirectoryPathOpt, hin]
  · intro hopt hmem
    have hres : getDirectoryToWatchFailedLookupLocation root p
        = nodeModulesAncestorWalk (getDirectoryPath p) := by
      unfold getDirectoryToWatchFailedLookupLocation
      rw [hopt]
      simp only [Bool.false_eq_true, if_false]
      by_cases hnm : isNodeModulesDirectory (getDirectoryPath p) = true
      · rw [if_pos hnm, nodeModulesAncestorWalk_self _ hnm]
      · rcases mem_last_or_dropLast _ _ hmem with hlast | hdl
        · exact absurd (by simp [isNodeModulesDirectory, hlast]) hnm
        · simp [hnm, hdl]
    rw [hres]
    exact nodeModulesAncestorWalk_spec (getDirectoryPath p).length
      (getDirectoryPath p) le_rfl hmem
  · intro r hr hin hnmem
    subst hr
    have hnm : isNodeModulesDirectory (getDirectoryPath p) = false := by
      rw [Bool.eq_false_iff]
      intro hh
      simp [isNodeModulesDirectory] at hh
      exact hnmem (by
        have : (getDirectoryPath p) ≠ [] := by
          intro hnil
          rw [hnil] at hh
          simp at hh
        rw [← List.dropLast_append_getLast this]
        rw [List.getLast?_eq_getLast _ this] at hh
        simp at hh
        simp [hh])
    have hdl : "node_modules" ∉ (getDirectoryPath p).dropLast := by
      intro hh
      exact hnmem (List.dropLast_subset _ hh)
    have hres : getDirectoryToWatchFailedLookupLocation (some r) p
        = ancestorOfRootWalk r (getDirectoryPath p) := by
      unfold getDirectoryToWatchFailedLookupLocation
      simp [isInDirectoryPathOpt, hin, hnm, hdl]
    rw [hres]
    exact ancestorOfRootWalk_spec (getDirectoryPath p).length r
      (getDirectoryPath p) le_rfl

/-- Witness for the C6 theorem: all three priorities at concrete inputs.
`/root/src/x.ts` under root `/root` watches `/root`; the failed lookup
`/a/node_modules/m/i.ts` (outside root `/proj`) watches `/a/node_modules`;
the failed lookup `/proj2/sub/x.ts` with root `/proj2/sub/deep/dir` walks up
to `/proj2/sub`. -/
theorem getDirectoryToWatchFailedLookupLocation_spec_witness :
    getDirectoryToWatchFailedLookupLocation (some ["root"]) ["root", "src", "x.ts"]
      = ["root"] ∧
    (getDirectoryToWatchFailedLookupLocation (some ["proj"])
        ["a", "node_modules", "m", "i.ts"]).getLast? = some "node_modules" ∧
    (isInDirectoryPath
        (getDirectoryToWatchFailedLookupLocation (some ["proj2", "sub", "deep", "dir"])
          ["proj2", "sub", "x.ts"])
        ["proj2", "sub", "deep", "dir"] = true ∨
      getDirectoryToWatchFailedLookupLocation (some ["proj2", "sub", "deep", "dir"])
        ["proj2", "sub", "x.ts"] = []) := by
  refine ⟨?_, ?_, ?_⟩
  · exact (getDirectoryToWatchFailedLookupLocation_spec (some ["root"])
      ["root", "src", "x.ts"]).1 ["root"] rfl (by decide)
  · exact ((getDirectoryToWatchFailedLookupLocation_spec (some ["proj"])
      ["a", "node_modules", "m", "i.ts"]).2.1 (by decide) (by decide)).2.1
  · exact ((getDirectoryToWatchFailedLookupLocation_spec
        (some ["proj2", "sub", "deep", "dir"])
        ["proj2", "sub", "x.ts"]).2.2 ["proj2", "sub", "deep", "dir"] rfl
        (by decide) (by decide)).2.1

/-!  ## C3: one result per input name, in input order  -/

/-- Each iteration of the name loop pushes exactly one result. -/
theorem resolveOneName_results_length (host : ResolutionCacheHost)
    (loader : String → Resolution) (path : Path) (ls : ResolveLoopState)
    (name : String) :
    (resolveOneName host loader path ls name).results.length
      = ls.results.length + 1 := by
  simp only [resolveOneName]
  split <;> simp

/-- The name loop pushes exactly one result per input name. -/
theorem resolveLoop_results_length (host : ResolutionCacheHost)
    (loader : String → Resolution) (path : Path) (names : List String)
    (ls : ResolveLoopState) :
    ((names.foldl (resolveOneName host loader path) ls).results).length
      = ls.results.length + names.length := by
  induction names generalizing ls with
  | nil => simp
  | cons n rest ih =>
      rw [List.foldl_cons, ih, resolveOneName_results_length]
      simp only [List.length_cons]
      omega

/-- Results already pushed are never revisited by later iterations. -/
theorem resolveLoop_results_extends (host : ResolutionCacheHost)
    (loader : String → Resolution) (path : Path) (names : List String)
    (ls : ResolveLoopState) :
    ∃ tail, ((names.foldl (resolveOneName host loader path) ls).results)
      = ls.results ++ tail := by
  induction names generalizing ls with
  | nil => exact ⟨[], by simp⟩
  | cons n rest ih =>
      rw [List.foldl_cons]
      obtain ⟨tail2, h2⟩ := ih (resolveOneName host loader path ls n)
      have h1 : ∃ r, (resolveOneName host loader path ls n).results
          = ls.results ++ [r] := by
        simp only [resolveOneName]
        split <;> exact ⟨_, rfl⟩
      obtain ⟨r, h1⟩ := h1
      exact ⟨r :: tail2, by rw [h2, h1, List.append_assoc]; rfl⟩

/-- C3: `resolveModuleNames` and `resolveTypeReferenceDirectives` return
exactly one result per input name, in input order: the result list has the
input's length, and the results for a prefix of the input names are a prefix
of the result list (processing later names appends after them).  Each entry
is an `Option` — a resolved-target descriptor or the explicit unresolved
marker `none` — and both modelled operations are total functions: an
unresolved name yields data, not an exception. -/
theorem resolveNames_one_result_per_name (host : ResolutionCacheHost)
    (loader : String → Resolution) (names : List String) (containingFile : Path)
    (reusedNames : Option (List String)) (logChanges : Bool)
    (s : ResolutionCacheState) :
    ((resolveModuleNames host loader names containingFile reusedNames logChanges s).1).length
        = names.length ∧
    ((resolveTypeReferenceDirectives host loader names containingFile s).1).length
        = names.length ∧
    (∀ names2, ∃ tail,
      (resolveModuleNames host loader (names ++ names2) containingFile
          reusedNames logChanges s).1
        = (resolveModuleNames host loader names containingFile reusedNames
            logChanges s).1 ++ tail) := by
  refine ⟨?_, ?_, ?_⟩
  · unfold resolveModuleNames resolveNamesWithLocalCache
    simp [resolveLoop_results_length]
  · unfold resolveTypeReferenceDirectives resolveNamesWithLocalCache
    simp [resolveLoop_results_length]
  · intro names2
    unfold resolveModuleNames resolveNamesWithLocalCache
    dsimp only
    rw [List.foldl_append]
    exact resolveLoop_results_extends host loader containingFile names2 _

/-!  ## C9: the structure version never decreases  -/

/-- `bumpStructureVersion` as an `if` on the version. -/
theorem bumpStructureVersion_version (b : Bool) (p : ProjectState) :
    (bumpStructureVersion b p).projectStructureVersion =
      (if b then p.projectStructureVersion + 1 else p.projectStructureVersion) := by
  unfold bumpStructureVersion
  split_ifs <;> rfl

/-- `setTypings` never touches the structure version. -/
theorem setTypings_version (p : ProjectState) (t : List String) :
    (setTypings p t).2.projectStructureVersion = p.projectStructureVersion := by
  unfold setTypings markAsDirty
  split_ifs <;> rfl

/-- `setTypings` reports a change exactly when the typings differ. -/
theorem setTypings_fst (p : ProjectState) (t : List String) :
    (setTypings p t).1 = true ↔ p.typingFiles ≠ t := by
  unfold setTypings
  split_ifs <;> simp_all

/-- Storing the unresolved-import list conditionally does not change the
structure version. -/
theorem version_if_importsUpdate (c : Prop) [Decidable c] (p : ProjectState)
    (l : Option (List String)) :
    (if c then { p with lastCachedUnresolvedImportsList := l } else p).projectStructureVersion
      = p.projectStructureVersion := by
  split_ifs <;> rfl

/-- Storing the unresolved-import list conditionally does not change the
typings list. -/
theorem typingFiles_if_importsUpdate (c : Prop) [Decidable c] (p : ProjectState)
    (l : Option (List String)) :
    (if c then { p with lastCachedUnresolvedImportsList := l } else p).typingFiles
      = p.typingFiles := by
  split_ifs <;> rfl

/-- One `updateGraph` moves the structure version up by zero or one. -/
theorem updateGraph_version_le (o : GraphUpdateOracle) (p : ProjectState) :
    p.projectStructureVersion ≤ (updateGraph o p).2.projectStructureVersion ∧
    (updateGraph o p).2.projectStructureVersion
      ≤ p.projectStructureVersion + 1 := by
  unfold updateGraph
  by_cases hlse : p.languageServiceEnabled = true
  · rw [if_pos hlse]
    dsimp only
    rw [bumpStructureVersion_version, setTypings_version,
      version_if_importsUpdate]
    split_ifs <;> omega
  · rw [if_neg hlse]
    dsimp only
    rw [bumpStructureVersion_version]
    split_ifs <;> simp

/-- `getChangesSinceVersion` reports but never moves the structure version
beyond its initial `updateGraph()`. -/
theorem getChangesSinceVersion_version_eq (o : GraphUpdateOracle)
    (fns exts : List String) (v : Option Nat) (p : ProjectState) :
    (getChangesSinceVersion o fns exts v p).2.projectStructureVersion
      = (updateGraph o p).2.projectStructureVersion := by
  unfold getChangesSinceVersion
  dsimp only
  split
  · split_ifs <;> rfl
  · rfl

/-- Every modelled public operation is monotone in the structure version. -/
theorem applyProjectOp_version_mono (p : ProjectState) (op : ProjectOp) :
    p.projectStructureVersion ≤ (applyProjectOp p op).projectStructureVersion := by
  cases op with
  | updateGraphOp o => exact (updateGraph_version_le o p).1
  | getChangesSinceVersionOp o fns exts v =>
      rw [applyProjectOp, getChangesSinceVersion_version_eq]
      exact (updateGraph_version_le o p).1
  | markAsDirtyOp => exact le_rfl
  | registerFileUpdateOp f => exact le_rfl
  | setTypingsOp t =>
      simp only [applyProjectOp]
      unfold setTypings markAsDirty
      split_ifs <;> simp

/-- C9: across any sequence of modelled public operations the structure
version is non-decreasing; a single `updateGraph()` raises it by at most 1;
and whenever it rises, `updateGraph` reported a change of the project's file
set (`!hasChanges` was false) driven by the builder's structure-changed
signal or by a changed typings list. -/
theorem projectStructureVersion_monotone :
    (∀ (ops : List ProjectOp) (p : ProjectState),
      p.projectStructureVersion
        ≤ (ops.foldl applyProjectOp p).projectStructureVersion) ∧
    (∀ (o : GraphUpdateOracle) (p : ProjectState),
      (updateGraph o p).2.projectStructureVersion
        ≤ p.projectStructureVersion + 1) ∧
    (∀ (o : GraphUpdateOracle) (p : ProjectState),
      (updateGraph o p).2.projectStructureVersion ≠ p.projectStructureVersion →
      (updateGraph o p).1 = false ∧
      (updateGraph o p).2.projectStructureVersion
          = p.projectStructureVersion + 1 ∧
      (o.workerHasChanges = true ∨
        (p.languageServiceEnabled = true ∧ p.typingFiles ≠ o.cachedTypings ∧
          o.workerHasChanges2 = true))) := by
  refine ⟨?_, ?_, ?_⟩
  · intro ops
    induction ops with
    | nil => intro p; exact le_rfl
    | cons op rest ih =>
        intro p
        rw [List.foldl_cons]
        exact le_trans (applyProjectOp_version_mono p op) (ih _)
  · intro o p
    exact (updateGraph_version_le o p).2
  · intro o p hne
    unfold updateGraph at *
    by_cases hlse : p.languageServiceEnabled = true
    · rw [if_pos hlse] at hne ⊢
      dsimp only at hne ⊢
      rw [bumpStructureVersion_version, setTypings_version,
        version_if_importsUpdate] at hne ⊢
      by_cases hc2 : (if (setTypings
          (if (o.workerHasChanges || !o.changedFiles.isEmpty) = true then
            { p with lastCachedUnresolvedImportsList := some o.unresolvedImportsList }
          else p) o.cachedTypings).1 = true
          then o.workerHasChanges2 || o.workerHasChanges
          else o.workerHasChanges) = true
      · rw [if_pos hc2] at hne ⊢
        refine ⟨by rw [hc2]; rfl, rfl, ?_⟩
        by_cases hst : (setTypings
            (if (o.workerHasChanges || !o.changedFiles.isEmpty) = true then
              { p with lastCachedUnresolvedImportsList := some o.unresolvedImportsList }
            else p) o.cachedTypings).1 = true
        · rw [if_pos hst, Bool.or_eq_true] at hc2
          rcases hc2 with hwc2 | hwc
          · right
            have hneq := (setTypings_fst _ _).mp hst
            rw [typingFiles_if_importsUpdate] at hneq
            exact ⟨hlse, hneq, hwc2⟩
          · left
            exact hwc
        · rw [if_neg hst] at hc2
          left
          exact hc2
      · rw [if_neg hc2] at hne
        exact absurd rfl hne
    · rw [if_neg hlse] at hne ⊢
      dsimp only at hne ⊢
      rw [bumpStructureVersion_version] at hne ⊢
      by_cases hwc : o.workerHasChanges = true
      · rw [if_pos hwc] at hne ⊢
        exact ⟨by rw [hwc]; rfl, rfl, Or.inl hwc⟩
      · rw [if_neg hwc] at hne
        exact absurd rfl hne

/-- Witness for the C9 theorem at a concrete input. -/
theorem projectStructureVersion_monotone_witness :
    (updateGraph ⟨true, [], [], [], false⟩
        ⟨0, 0, false, [], none, none, 0, none⟩).1 = false ∧
    (updateGraph ⟨true, [], [], [], false⟩
        ⟨0, 0, false, [], none, none, 0, none⟩).2.projectStructureVersion
      = 0 + 1 :=
  ⟨(projectStructureVersion_monotone.2.2 ⟨true, [], [], [], false⟩
      ⟨0, 0, false, [], none, none, 0, none⟩ (by decide)).1,
   (projectStructureVersion_monotone.2.2 ⟨true, [], [], [], false⟩
      ⟨0, 0, false, [], none, none, 0, none⟩ (by decide)).2.1⟩

/-!  ## C8: `getChangesSinceVersion`  -/

/-- `bumpStructureVersion` does not touch the reporting bookkeeping. -/
theorem bumpStructureVersion_reporting (b : Bool) (p : ProjectState) :
    (bumpStructureVersion b p).lastReportedFileNames = p.lastReportedFileNames ∧
    (bumpStructureVersion b p).lastReportedVersion = p.lastReportedVersion ∧
    (bumpStructureVersion b p).updatedFileNames = p.updatedFileNames ∧
    (bumpStructureVersion b p).typingFiles = p.typingFiles := by
  unfold bumpStructureVersion
  split_ifs <;> exact ⟨rfl, rfl, rfl, rfl⟩

/-- `setTypings` does not touch the reporting bookkeeping. -/
theorem setTypings_reporting (p : ProjectState) (t : List String) :
    (setTypings p t).2.lastReportedFileNames = p.lastReportedFileNames ∧
    (setTypings p t).2.lastReportedVersion = p.lastReportedVersion ∧
    (setTypings p t).2.updatedFileNames = p.updatedFileNames := by
  unfold setTypings markAsDirty
  split_ifs <;> exact ⟨rfl, rfl, rfl⟩

/-- The conditional unresolved-imports store does not touch the reporting
bookkeeping. -/
theorem importsUpdate_reporting (c : Prop) [Decidable c] (p : ProjectState)
    (l : Option (List String)) :
    (if c then { p with lastCachedUnresolvedImportsList := l } else p).lastReportedFileNames
        = p.lastReportedFileNames ∧
    (if c then { p with lastCachedUnresolvedImportsList := l } else p).lastReportedVersion
        = p.lastReportedVersion ∧
    (if c then { p with lastCachedUnresolvedImportsList := l } else p).updatedFileNames
        = p.updatedFileNames := by
  split_ifs <;> exact ⟨rfl, rfl, rfl⟩

/-- `updateGraph` does not touch the reporting bookkeeping
(`lastReportedFileNames`, `lastReportedVersion`, `updatedFileNames`). -/
theorem updateGraph_reporting (o : GraphUpdateOracle) (p : ProjectState) :
    (updateGraph o p).2.lastReportedFileNames = p.lastReportedFileNames ∧
    (updateGraph o p).2.lastReportedVersion = p.lastReportedVersion ∧
    (updateGraph o p).2.updatedFileNames = p.updatedFileNames := by
  unfold updateGraph
  by_cases hlse : p.languageServiceEnabled = true
  · rw [if_pos hlse]
    dsimp only
    refine ⟨?_, ?_, ?_⟩
    · rw [(bumpStructureVersion_reporting _ _).1, (setTypings_reporting _ _).1,
        (importsUpdate_reporting _ _ _).1]
    · rw [(bumpStructureVersion_reporting _ _).2.1,
        (setTypings_reporting _ _).2.1, (importsUpdate_reporting _ _ _).2.1]
    · rw [(bumpStructureVersion_reporting _ _).2.2.1,
        (setTypings_reporting _ _).2.2, (importsUpdate_reporting _ _ _).2.2]
  · rw [if_neg hlse]
    dsimp only
    exact ⟨(bumpStructureVersion_reporting _ _).1,
      (bumpStructureVersion_reporting _ _).2.1,
      (bumpStructureVersion_reporting _ _).2.2.1⟩

/-- When `updateGraph` reports "unchanged" the structure version did not
move. -/
theorem updateGraph_unchanged_version (o : GraphUpdateOracle) (p : ProjectState)
    (h : (updateGraph o p).1 = true) :
    (updateGraph o p).2.projectStructureVersion = p.projectStructureVersion := by
  unfold updateGraph at *
  by_cases hlse : p.languageServiceEnabled = true
  · rw [if_pos hlse] at h ⊢
    dsimp only at h ⊢
    rw [Bool.not_eq_eq_eq_not, Bool.not_true] at h
    rw [bumpStructureVersion_version, setTypings_version,
      version_if_importsUpdate, if_neg (by simp only [h]; simp)]
  · rw [if_neg hlse] at h ⊢
    dsimp only at h ⊢
    rw [Bool.not_eq_eq_eq_not, Bool.not_true] at h
    rw [bumpStructureVersion_version, if_neg (by simp only [h]; simp)]

/-- A no-change pass (builder reports no structural change, typings cache
returns the current typings) leaves the structure version unchanged. -/
theorem updateGraph_noop_version (o : GraphUpdateOracle) (p : ProjectState)
    (h1 : o.workerHasChanges = false) (h2 : o.cachedTypings = p.typingFiles) :
    (updateGraph o p).2.projectStructureVersion = p.projectStructureVersion := by
  unfold updateGraph
  by_cases hlse : p.languageServiceEnabled = true
  · rw [if_pos hlse]
    dsimp only
    rw [bumpStructureVersion_version, setTypings_version,
      version_if_importsUpdate]
    have hst : (setTypings
        (if (o.workerHasChanges || !o.changedFiles.isEmpty) = true then
          { p with lastCachedUnresolvedImportsList := some o.unresolvedImportsList }
        else p) o.cachedTypings).1 = false := by
      rw [Bool.eq_false_iff]
      intro hc
      have := (setTypings_fst _ _).mp hc
      rw [typingFiles_if_importsUpdate] at this
      exact this h2.symm
    rw [if_neg (by simp only [hst]; simp only [h1]; simp)]
  · rw [if_neg hlse]
    dsimp only
    rw [bumpStructureVersion_version, if_neg (by simp only [h1]; simp)]

/-- The version reported by `getChangesSinceVersion` is the structure version
right after its initial `updateGraph()`. -/
theorem getChangesSinceVersion_result_version (o : GraphUpdateOracle)
    (fns exts : List String) (v : Option Nat) (p : ProjectState) :
    (getChangesSinceVersion o fns exts v p).1.version
      = (updateGraph o p).2.projectStructureVersion := by
  unfold getChangesSinceVersion
  dsimp only
  split
  · split_ifs <;> rfl
  · rfl

/-- C8: `getChangesSinceVersion(lastVersion)`.
(a) If `lastVersion` matches the last reported version and nothing changed
since (the pass reports "unchanged", the structure version still equals the
reported one and no file updates were registered), the result carries no file
list and no delta.
(b) If `lastVersion` matches the last reported version but something changed,
the result carries the added/removed/updated delta against the previously
reported file set and no full list.
(c) Otherwise (unknown version or first call) the result carries the full
current file list and no delta fields.
(d) Two consecutive calls with no intervening change (second pass's builder
reports no change, typings unchanged) report the same version. -/
theorem getChangesSinceVersion_spec (o : GraphUpdateOracle)
    (fns exts : List String) (lastKnownVersion : Option Nat)
    (p : ProjectState) :
    (∀ L, p.lastReportedFileNames = some L →
      lastKnownVersion = some p.lastReportedVersion →
      (updateGraph o p).1 = true →
      p.projectStructureVersion = p.lastReportedVersion →
      p.updatedFileNames = none →
      (getChangesSinceVersion o fns exts lastKnownVersion p).1.files = none ∧
      (getChangesSinceVersion o fns exts lastKnownVersion p).1.added = none ∧
      (getChangesSinceVersion o fns exts lastKnownVersion p).1.removed = none ∧
      (getChangesSinceVersion o fns exts lastKnownVersion p).1.updated = none) ∧
    (∀ L, p.lastReportedFileNames = some L →
      lastKnownVersion = some p.lastReportedVersion →
      ¬((updateGraph o p).2.projectStructureVersion = p.lastReportedVersion ∧
        p.updatedFileNames = none) →
      (getChangesSinceVersion o fns exts lastKnownVersion p).1.files = none ∧
      (getChangesSinceVersion o fns exts lastKnownVersion p).1.added
        = some ((fns ++ exts).filter (fun f => !(L.contains f))) ∧
      (getChangesSinceVersion o fns exts lastKnownVersion p).1.removed
        = some (L.filter (fun f => !((fns ++ exts).contains f))) ∧
      (getChangesSinceVersion o fns exts lastKnownVersion p).1.updated
        = some (p.updatedFileNames.getD [])) ∧
    ((p.lastReportedFileNames = none ∨
        lastKnownVersion ≠ some p.lastReportedVersion) →
      (getChangesSinceVersion o fns exts lastKnownVersion p).1.files
        = some (fns ++ exts) ∧
      (getChangesSinceVersion o fns exts lastKnownVersion p).1.added = none ∧
      (getChangesSinceVersion o fns exts lastKnownVersion p).1.removed = none ∧
      (getChangesSinceVersion o fns exts lastKnownVersion p).1.updated = none) ∧
    (∀ (o' : GraphUpdateOracle) (fns2 exts2 : List String)
        (lk2 : Option Nat),
      o'.workerHasChanges = false →
      o'.cachedTypings
        = (getChangesSinceVersion o fns exts lastKnownVersion p).2.typingFiles →
      (getChangesSinceVersion o' fns2 exts2 lk2
          (getChangesSinceVersion o fns exts lastKnownVersion p).2).1.version
        = (getChangesSinceVersion o fns exts lastKnownVersion p).1.version) := by
  have hrep := updateGraph_reporting o p
  refine ⟨?_, ?_, ?_, ?_⟩
  · intro L hL hv hug hsv hup
    have hvv := updateGraph_unchanged_version o p hug
    unfold getChangesSinceVersion
    dsimp only
    rw [hrep.1, hL]
    dsimp only
    rw [hrep.2.1, if_pos hv, hrep.2.2, hup, hvv, hsv,
      if_pos (by simp)]
    exact ⟨rfl, rfl, rfl, rfl⟩
  · intro L hL hv hne
    unfold getChangesSinceVersion
    dsimp only
    rw [hrep.1, hL]
    dsimp only
    rw [hrep.2.1, if_pos hv, hrep.2.2]
    rw [if_neg (by
      intro hcond
      simp only [Bool.and_eq_true, decide_eq_true_eq, Option.isNone_iff_eq_none]
        at hcond
      exact hne ⟨hcond.1, hcond.2⟩)]
    exact ⟨rfl, rfl, rfl, rfl⟩
  · intro hcase
    unfold getChangesSinceVersion
    dsimp only
    rcases hcase with hnone | hne
    · rw [hrep.1, hnone]
      exact ⟨rfl, rfl, rfl, rfl⟩
    · rcases hsome : p.lastReportedFileNames with _ | L
      · rw [hrep.1, hsome]
        exact ⟨rfl, rfl, rfl, rfl⟩
      · rw [hrep.1, hsome]
        dsimp only
        rw [hrep.2.1, if_neg hne]
        exact ⟨rfl, rfl, rfl, rfl⟩
  · intro o' fns2 exts2 lk2 hwc htyp
    rw [getChangesSinceVersion_result_version o' fns2 exts2 lk2 _,
      updateGraph_noop_version o' _ hwc htyp,
      getChangesSinceVersion_version_eq, getChangesSinceVersion_result_version]

/-- Witness for the C8 theorem at a concrete input: an unknown version on a
fresh project returns the full file list. -/
theorem getChangesSinceVersion_spec_witness :
    (getChangesSinceVersion ⟨false, [], [], [], false⟩ ["a.ts"] ["ext.d.ts"]
        (some 42) ⟨0, 0, false, [], none, none, 0, none⟩).1.files
      = some (["a.ts"] ++ ["ext.d.ts"]) :=
  ((getChangesSinceVersion_spec ⟨false, [], [], [], false⟩ ["a.ts"] ["ext.d.ts"]
      (some 42) ⟨0, 0, false, [], none, none, 0, none⟩).2.2.1
    (Or.inl rfl)).1

/-!  ## C7: re-resolving an unchanged name records no change

The watch bookkeeping touches only `customFailedLookupPaths`,
`directoryWatchesOfFailedLookups` and the handle counter; `watchView`
collects every other component of the state. -/

/-- Every state component that watch bookkeeping does not touch. -/
def watchView (s : ResolutionCacheState) :
    List (RecId × Resolution) × RecId × List (Path × ResolutionMap) ×
    List (Path × ResolutionMap) × List (Path × ResolutionMap) ×
    List (Path × ResolutionMap) × Option (List Path) × Option (List Path) ×
    Bool :=
  (s.heap, s.nextRecId, s.resolvedModuleNames,
   s.resolvedTypeReferenceDirectives, s.perDirectoryResolvedModuleNames,
   s.perDirectoryResolvedTypeReferenceDirectives,
   s.filesWithChangedSetOfUnresolvedImports, s.filesWithInvalidatedResolutions,
   s.allFilesHaveInvalidatedResolution)

theorem watchView_fields {s t : ResolutionCacheState}
    (h : watchView s = watchView t) :
    s.heap = t.heap ∧ s.nextRecId = t.nextRecId ∧
    s.resolvedModuleNames = t.resolvedModuleNames ∧
    s.resolvedTypeReferenceDirectives = t.resolvedTypeReferenceDirectives ∧
    s.perDirectoryResolvedModuleNames = t.perDirectoryResolvedModuleNames ∧
    s.perDirectoryResolvedTypeReferenceDirectives
      = t.perDirectoryResolvedTypeReferenceDirectives ∧
    s.filesWithChangedSetOfUnresolvedImports
      = t.filesWithChangedSetOfUnresolvedImports ∧
    s.filesWithInvalidatedResolutions = t.filesWithInvalidatedResolutions ∧
    s.allFilesHaveInvalidatedResolution = t.allFilesHaveInvalidatedResolution := by
  simpa [watchView, Prod.ext_iff] using h

theorem watchView_watchOne (host : ResolutionCacheHost)
    (s : ResolutionCacheState) (loc : Path) :
    watchView (watchOneFailedLookupLocation host s loc) = watchView s := by
  obtain ⟨c, hc⟩ := watchCustomPath_shape s loc
  obtain ⟨w, m, hw⟩ := watchDir_shape host (watchCustomPath s loc) loc
  unfold watchOneFailedLookupLocation
  rw [hw, hc]
  rfl

theorem watchView_stopOne (host : ResolutionCacheHost)
    (s : ResolutionCacheState) (loc : Path) :
    watchView (stopWatchOneFailedLookupLocation host s loc) = watchView s := by
  obtain ⟨c, hc⟩ := stopWatchCustomPath_shape s loc
  obtain ⟨w, hw, _⟩ := stopWatchDir_shape host (stopWatchCustomPath s loc) loc
  unfold stopWatchOneFailedLookupLocation
  rw [hw, hc]
  rfl

theorem watchView_foldl_watchOne (host : ResolutionCacheHost)
    (locs : List Path) (s : ResolutionCacheState) :
    watchView (locs.foldl (watchOneFailedLookupLocation host) s)
      = watchView s := by
  induction locs generalizing s with
  | nil => rfl
  | cons l rest ih =>
      rw [List.foldl_cons, ih _, watchView_watchOne]

theorem watchView_foldl_stopOne (host : ResolutionCacheHost)
    (locs : List Path) (s : ResolutionCacheState) :
    watchView (locs.foldl (stopWatchOneFailedLookupLocation host) s)
      = watchView s := by
  induction locs generalizing s with
  | nil => rfl
  | cons l rest ih =>
      rw [List.foldl_cons, ih _, watchView_stopOne]

theorem watchView_watchResolution (host : ResolutionCacheHost)
    (s : ResolutionCacheState) (rid : RecId) (i : Nat) :
    watchView (watchFailedLookupLocationOfResolution host s rid i)
      = watchView s := by
  unfold watchFailedLookupLocationOfResolution
  exact watchView_foldl_watchOne host _ s

theorem watchView_stopFrom (host : ResolutionCacheHost)
    (s : ResolutionCacheState) (rid : RecId) (i : Nat) :
    watchView (stopWatchFailedLookupLocationOfResolutionFrom host s rid i)
      = watchView s := by
  unfold stopWatchFailedLookupLocationOfResolutionFrom
  exact watchView_foldl_stopOne host _ s

theorem watchView_stopResolution (host : ResolutionCacheHost)
    (s : ResolutionCacheState) (rid : RecId) :
    watchView (stopWatchFailedLookupLocationOfResolution host s rid)
      = watchView s := by
  unfold stopWatchFailedLookupLocationOfResolution
  exact watchView_stopFrom host s rid 0

theorem watchView_diff (host : ResolutionCacheHost)
    (s : ResolutionCacheState) (rid exId : RecId) :
    watchView (watchAndStopWatchDiffFailedLookupLocations host s rid exId)
      = watchView s := by
  unfold watchAndStopWatchDiffFailedLookupLocations
  dsimp only
  split_ifs <;>
    simp only [watchView_stopFrom, watchView_watchResolution]

theorem watchView_foldl_stopResolution (host : ResolutionCacheHost)
    (resolutions : ResolutionMap) (s : ResolutionCacheState) :
    watchView (resolutions.foldl
        (fun st nr => stopWatchFailedLookupLocationOfResolution host st nr.2) s)
      = watchView s := by
  induction resolutions generalizing s with
  | nil => rfl
  | cons nr rest ih =>
      rw [List.foldl_cons, ih _, watchView_stopResolution]

/-- After processing a not-yet-seen name, the per-file map binds it to a
record that either is also the per-directory binding (aliasing) or was reused
as a valid cached record (no overflow flag, not invalidated). -/
theorem resolveOneName_post (host : ResolutionCacheHost)
    (loader : String → Resolution) (f : Path) (n : String)
    (ls : ResolveLoopState) (hseen : ls.seenNamesInFile.contains n = false) :
    ∃ rid, alGet (resolveOneName host loader f ls n).resolutionsInFile n = some rid ∧
      (resolveOneName host loader f ls n).seenNamesInFile
        = ls.seenNamesInFile ++ [n] ∧
      (alGet (resolveOneName host loader f ls n).perDirectoryResolution n
          = some rid ∨
        ((resolveOneName host loader f ls n).s.allFilesHaveInvalidatedResolution
            = false ∧
          (getRec (resolveOneName host loader f ls n).s.heap rid).isInvalidated
            = false)) := by
  simp only [resolveOneName]
  split
  next hcond =>
      rcases hhit : alGet ls.perDirectoryResolution n with _ | rid0
      · simp only [hhit]
        exact ⟨ls.s.nextRecId, alGet_alSet_self _ _ _, by simp,
          Or.inl (alGet_alSet_self _ _ _)⟩
      · simp only [hhit]
        exact ⟨rid0, alGet_alSet_self _ _ _, by simp, Or.inl rfl⟩
  next hcond =>
      rcases hex : alGet ls.resolutionsInFile n with _ | rid
      · exact absurd (by rw [hex]; simp) hcond
      · have hb : ((!(ls.seenNamesInFile.contains n)
              && ls.s.allFilesHaveInvalidatedResolution)
            || (alGet ls.resolutionsInFile n).isNone
            || (match alGet ls.resolutionsInFile n with
                | some rid => (getRec ls.s.heap rid).isInvalidated
                | none => false)) = false := by
          rw [Bool.eq_false_iff]
          exact hcond
        rw [hex] at hb
        dsimp only at hb
        rw [hseen, Bool.not_false, Bool.true_and] at hb
        simp only [Option.isNone_some, Bool.or_false, Bool.false_or] at hb
        rw [Bool.or_eq_false_iff] at hb
        exact ⟨rid, rfl, by simp, Or.inr ⟨hb.1, hb.2⟩⟩

/-- `resolutionIsEqualTo` on the same record is true by object identity. -/
theorem resolutionIsEqualTo_refl (heap : List (RecId × Resolution))
    (rid : RecId) : resolutionIsEqualTo heap (some rid) (some rid) = true := by
  unfold resolutionIsEqualTo
  simp

/-- Re-resolving a name whose per-file record is valid, or is also the
per-directory record for that name, never pushes the containing file into
the changed-resolutions list. -/
theorem resolveOneName_no_log (host : ResolutionCacheHost)
    (loader : String → Resolution) (f : Path) (n : String)
    (ls : ResolveLoopState) (rid : RecId)
    (hrif : alGet ls.resolutionsInFile n = some rid)
    (hdisj : alGet ls.perDirectoryResolution n = some rid ∨
      (ls.s.allFilesHaveInvalidatedResolution = false ∧
        (getRec ls.s.heap rid).isInvalidated = false)) :
    (resolveOneName host loader f ls n).s.filesWithChangedSetOfUnresolvedImports
      = ls.s.filesWithChangedSetOfUnresolvedImports := by
  simp only [resolveOneName]
  split
  next hcond =>
      have hpd : alGet ls.perDirectoryResolution n = some rid := by
        rcases hdisj with h | ⟨hall, hinv⟩
        · exact h
        · exfalso
          rw [hrif] at hcond
          simp [hall, hinv] at hcond
      simp only [hpd, hrif, resolutionIsEqualTo_refl, Bool.not_true,
        Bool.and_false, Bool.false_eq_true, if_false]
      exact (watchView_fields (watchView_diff host ls.s rid rid)).2.2.2.2.2.2.1
  next => rfl

/-- The single-name `resolveModuleNames` call leaves the per-file cache entry
for the name bound to a record that either aliases the per-directory entry or
is valid, ready for a second resolution to reuse. -/
theorem resolveModuleNames_post (host : ResolutionCacheHost)
    (loader : String → Resolution) (n : String) (f : Path)
    (reusedNames : Option (List String)) (logChanges : Bool)
    (s : ResolutionCacheState) :
    ∃ rid,
      alGet ((alGet (resolveModuleNames host loader [n] f reusedNames logChanges
          s).2.resolvedModuleNames f).getD []) n = some rid ∧
      (alGet ((alGet (resolveModuleNames host loader [n] f reusedNames logChanges
            s).2.perDirectoryResolvedModuleNames (getDirectoryPath f)).getD []) n
          = some rid ∨
        ((resolveModuleNames host loader [n] f reusedNames logChanges
            s).2.allFilesHaveInvalidatedResolution = false ∧
          (getRec (resolveModuleNames host loader [n] f reusedNames logChanges
              s).2.heap rid).isInvalidated = false)) := by
  obtain ⟨rid, hr1, hseen1, hdisj1⟩ := resolveOneName_post host loader f n
    ⟨s, (alGet s.resolvedModuleNames f).getD [],
      (alGet s.perDirectoryResolvedModuleNames (getDirectoryPath f)).getD [],
      [], logChanges, []⟩ rfl
  unfold resolveModuleNames resolveNamesWithLocalCache
  simp only [getCacheOf, getPerDirCacheOf, setCacheOf, setPerDirCacheOf,
    List.foldl_cons, List.foldl_nil]
  obtain hE := watchView_fields (watchView_foldl_stopResolution host _
    (resolveOneName host loader f
      ⟨s, (alGet s.resolvedModuleNames f).getD [],
        (alGet s.perDirectoryResolvedModuleNames (getDirectoryPath f)).getD [],
        [], logChanges, []⟩ n).s)
  refine ⟨rid, ?_, ?_⟩
  · rw [alGet_alSet_self]
    simp only [Option.getD_some]
    rw [alGet_filter_key _
      (fun k => (resolveOneName host loader f
        ⟨s, (alGet s.resolvedModuleNames f).getD [],
          (alGet s.perDirectoryResolvedModuleNames (getDirectoryPath f)).getD [],
          [], logChanges, []⟩ n).seenNamesInFile.contains k
        || containsOpt reusedNames k)]
    rw [hseen1]
    simp only [List.nil_append]
    rw [if_pos (by simp)]
    exact hr1
  · rcases hdisj1 with hl | ⟨ha, hi⟩
    · left
      rw [alGet_alSet_self]
      simp only [Option.getD_some]
      exact hl
    · right
      constructor
      · exact hE.2.2.2.2.2.2.2.2.symm ▸ ha
      · exact hE.1.symm ▸ hi

/-- A `resolveModuleNames` call on a name whose cached record is valid or
aliases the per-directory record records no changed resolution. -/
theorem resolveModuleNames_no_log_of_cached (host : ResolutionCacheHost)
    (loader : String → Resolution) (n : String) (f : Path)
    (reusedNames : Option (List String)) (s : ResolutionCacheState)
    (rid : RecId)
    (hrif : alGet ((alGet s.resolvedModuleNames f).getD []) n = some rid)
    (hdisj : alGet ((alGet s.perDirectoryResolvedModuleNames
        (getDirectoryPath f)).getD []) n = some rid ∨
      (s.allFilesHaveInvalidatedResolution = false ∧
        (getRec s.heap rid).isInvalidated = false)) :
    (resolveModuleNames host loader [n] f reusedNames true
        s).2.filesWithChangedSetOfUnresolvedImports
      = s.filesWithChangedSetOfUnresolvedImports := by
  have hstep := resolveOneName_no_log host loader f n
    ⟨s, (alGet s.resolvedModuleNames f).getD [],
      (alGet s.perDirectoryResolvedModuleNames (getDirectoryPath f)).getD [],
      [], true, []⟩ rid hrif hdisj
  unfold resolveModuleNames resolveNamesWithLocalCache
  simp only [getCacheOf, getPerDirCacheOf, setCacheOf, setPerDirCacheOf,
    List.foldl_cons, List.foldl_nil]
  obtain hE := watchView_fields (watchView_foldl_stopResolution host _
    (resolveOneName host loader f
      ⟨s, (alGet s.resolvedModuleNames f).getD [],
        (alGet s.perDirectoryResolvedModuleNames (getDirectoryPath f)).getD [],
        [], true, []⟩ n).s)
  rw [hE.2.2.2.2.2.2.1]
  exact hstep

/-- C7: resolving the same name from the same containing file twice in a row
(no intervening operation, same loader — i.e. no filesystem change) with
`logChanges = true` leaves the changed-resolutions list exactly as the first
call left it: the second resolution either reuses the valid cached record or
re-resolves to the per-directory alias of the same record, and
`resolutionIsEqualTo` (record identity / resolved-path equality, not object
identity of the call) suppresses recording. -/
theorem resolveModuleNames_twice_records_no_change (host : ResolutionCacheHost)
    (loader : String → Resolution) (n : String) (f : Path)
    (reusedNames : Option (List String)) (s0 : ResolutionCacheState) :
    (resolveModuleNames host loader [n] f reusedNames true
        (resolveModuleNames host loader [n] f reusedNames true
          s0).2).2.filesWithChangedSetOfUnresolvedImports
      = (resolveModuleNames host loader [n] f reusedNames true
          s0).2.filesWithChangedSetOfUnresolvedImports := by
  obtain ⟨rid, h1, h2⟩ := resolveModuleNames_post host loader n f reusedNames
    true s0
  exact resolveModuleNames_no_log_of_cached host loader n f reusedNames _ rid
    h1 h2

/-!  ## C1: `invalidateResolutionOfFile` marks the resolutions targeting the
deleted file  -/

/-- Deleting a key removes every binding of it. -/
theorem alGet_alDelete_self {α β : Type} [DecidableEq α] (m : List (α × β))
    (k : α) : alGet (alDelete m k) k = none := by
  induction m with
  | nil => rfl
  | cons e rest ih =>
      obtain ⟨a, b⟩ := e
      unfold alDelete at ih ⊢
      rw [List.filter_cons]
      by_cases he : a = k
      · simpa [he] using ih
      · simpa [alGet, he] using ih

/-- Every state component `invalidateStep` does not touch: everything except
the record heap and the collected invalidated-files set. -/
def markView (s : ResolutionCacheState) :
    List (Path × ResolutionMap) × List (Path × ResolutionMap) ×
    List (Path × ResolutionMap) × List (Path × ResolutionMap) ×
    Option (List Path) × Bool × List (Path × Nat) ×
    List (Path × DirectoryWatchesOfFailedLookup) × Nat × List Nat × RecId :=
  (s.resolvedModuleNames, s.resolvedTypeReferenceDirectives,
   s.perDirectoryResolvedModuleNames,
   s.perDirectoryResolvedTypeReferenceDirectives,
   s.filesWithChangedSetOfUnresolvedImports,
   s.allFilesHaveInvalidatedResolution, s.customFailedLookupPaths,
   s.directoryWatchesOfFailedLookups, s.nextWatcherId, s.closedWatchers,
   s.nextRecId)

theorem markView_fields {s t : ResolutionCacheState}
    (h : markView s = markView t) :
    s.resolvedModuleNames = t.resolvedModuleNames ∧
    s.resolvedTypeReferenceDirectives = t.resolvedTypeReferenceDirectives ∧
    s.perDirectoryResolvedModuleNames = t.perDirectoryResolvedModuleNames ∧
    s.perDirectoryResolvedTypeReferenceDirectives
      = t.perDirectoryResolvedTypeReferenceDirectives ∧
    s.filesWithChangedSetOfUnresolvedImports
      = t.filesWithChangedSetOfUnresolvedImports ∧
    s.allFilesHaveInvalidatedResolution = t.allFilesHaveInvalidatedResolution ∧
    s.customFailedLookupPaths = t.customFailedLookupPaths ∧
    s.directoryWatchesOfFailedLookups = t.directoryWatchesOfFailedLookups ∧
    s.nextWatcherId = t.nextWatcherId ∧
    s.closedWatchers = t.closedWatchers ∧
    s.nextRecId = t.nextRecId := by
  simpa [markView, Prod.ext_iff] using h

theorem markView_invalidateStep (pred : Resolution → Bool)
    (acc : ResolutionCacheState × List (Path × String))
    (t : Path × String × RecId) :
    markView (invalidateStep pred acc t).1 = markView acc.1 := by
  simp only [invalidateStep]
  split_ifs <;> rfl

theorem markView_invalidate_foldl (pred : Resolution → Bool)
    (l : List (Path × String × RecId))
    (acc : ResolutionCacheState × List (Path × String)) :
    markView ((l.foldl (invalidateStep pred) acc).1) = markView acc.1 := by
  induction l generalizing acc with
  | nil => rfl
  | cons t rest ih =>
      rw [List.foldl_cons, ih, markView_invalidateStep]

/-- Exact-marking lemma for one `invalidateResolutionCache` fold: when the
`(directory, name)` pairs of the walked triples are pairwise distinct (so the
per-directory dedup never skips anything), the record ids are pairwise
distinct (no aliasing), and no pair is pre-seeded in `seen`, then a record is
marked invalidated exactly when it is referenced by the walked cache, was not
yet invalidated and satisfies the predicate; all other records are
untouched. -/
theorem invalidate_foldl_heap (pred : Resolution → Bool) :
    ∀ (l : List (Path × String × RecId)) (s : ResolutionCacheState)
      (seen : List (Path × String)),
    ((l.map (fun t => (getDirectoryPath t.1, t.2.1))).Nodup) →
    ((l.map (fun t => t.2.2)).Nodup) →
    (∀ t ∈ l, (getDirectoryPath t.1, t.2.1) ∉ seen) →
    ∀ rid r, alGet s.heap rid = some r →
      alGet ((l.foldl (invalidateStep pred) (s, seen)).1).heap rid
        = some (if rid ∈ l.map (fun t => t.2.2) ∧ r.isInvalidated = false ∧
                  pred r = true
                then { r with isInvalidated := true } else r) := by
  intro l
  induction l with
  | nil =>
      intro s seen h1 h2 h3 rid r hr
      simp [hr]
  | cons t rest ih =>
      intro s seen h1 h2 h3 rid r hr
      rw [List.foldl_cons]
      rw [List.map_cons, List.nodup_cons] at h1 h2
      have hnotseen : (getDirectoryPath t.1, t.2.1) ∉ seen :=
        h3 t (List.mem_cons_self _ _)
      have hseen' : ∀ t' ∈ rest,
          (getDirectoryPath t'.1, t'.2.1)
            ∉ (getDirectoryPath t.1, t.2.1) :: seen := by
        intro t' ht' hmem
        rcases List.mem_cons.mp hmem with heq | hmem'
        · apply h1.1
          rw [← heq]
          exact List.mem_map_of_mem _ ht'
        · exact h3 t' (List.mem_cons_of_mem _ ht') hmem'
      simp only [invalidateStep]
      rw [if_neg hnotseen]
      by_cases hrid : rid = t.2.2
      · subst hrid
        have hg : getRec s.heap t.2.2 = r := by
          unfold getRec
          rw [hr]
          rfl
        rw [hg]
        by_cases hmark : (!r.isInvalidated && pred r) = true
        · rw [if_pos hmark]
          refine Eq.trans (ih _ _ h1.2 h2.2 hseen' t.2.2
            { r with isInvalidated := true } ?_) ?_
          · exact alGet_alSet_self _ _ _
          · rw [if_neg (by intro hcontra; simp at hcontra)]
            rw [Bool.and_eq_true, Bool.not_eq_true'] at hmark
            rw [if_pos ⟨by simp, hmark.1, hmark.2⟩]
        · rw [if_neg hmark]
          refine Eq.trans (ih _ _ h1.2 h2.2 hseen' t.2.2 r ?_) ?_
          · exact hr
          · rw [if_neg (fun hcontra => h2.1 hcontra.1)]
            rw [if_neg (by
              intro hcontra
              exact hmark (by
                rw [Bool.and_eq_true, Bool.not_eq_true']
                exact ⟨hcontra.2.1, hcontra.2.2⟩))]
      · by_cases hmark : (!(getRec s.heap t.2.2).isInvalidated
            && pred (getRec s.heap t.2.2)) = true
        · rw [if_pos hmark]
          refine Eq.trans (ih _ _ h1.2 h2.2 hseen' rid r ?_) ?_
          · rw [alGet_alSet_ne _ _ _ _ hrid]
            exact hr
          · have hmem : (rid ∈ t.2.2 :: List.map (fun t => t.2.2) rest)
                = (rid ∈ List.map (fun t => t.2.2) rest) := by
              simp [hrid]
            rw [List.map_cons]
            simp only [hmem]
        · rw [if_neg hmark]
          refine Eq.trans (ih _ _ h1.2 h2.2 hseen' rid r ?_) ?_
          · exact hr
          · have hmem : (rid ∈ t.2.2 :: List.map (fun t => t.2.2) rest)
                = (rid ∈ List.map (fun t => t.2.2) rest) := by
              simp [hrid]
            rw [List.map_cons]
            simp only [hmem]

/-- The eviction fold over a file's resolutions only touches watch
bookkeeping: heap, overflow flag and both per-file caches are preserved. -/
theorem stopResolutionsFold_fields (host : ResolutionCacheHost)
    (resolutions : ResolutionMap) (s : ResolutionCacheState) :
    ((resolutions.foldl
        (fun st nr => stopWatchFailedLookupLocationOfResolution host st nr.2)
        s).heap = s.heap) ∧
    ((resolutions.foldl
        (fun st nr => stopWatchFailedLookupLocationOfResolution host st nr.2)
        s).allFilesHaveInvalidatedResolution
      = s.allFilesHaveInvalidatedResolution) ∧
    ((resolutions.foldl
        (fun st nr => stopWatchFailedLookupLocationOfResolution host st nr.2)
        s).resolvedModuleNames = s.resolvedModuleNames) ∧
    ((resolutions.foldl
        (fun st nr => stopWatchFailedLookupLocationOfResolution host st nr.2)
        s).resolvedTypeReferenceDirectives
      = s.resolvedTypeReferenceDirectives) := by
  have h := watchView_fields (watchView_foldl_stopResolution host resolutions s)
  exact ⟨h.1, h.2.2.2.2.2.2.2.2, h.2.2.1, h.2.2.2.1⟩

/-- `removeResolutionsOfFile` keeps the heap and overflow flag, and leaves
no per-file cache entry for the removed file in either cache. -/
theorem removeResolutionsOfFile_spec (host : ResolutionCacheHost)
    (s : ResolutionCacheState) (filePath : Path) :
    (removeResolutionsOfFile host s filePath).heap = s.heap ∧
    (removeResolutionsOfFile host s filePath).allFilesHaveInvalidatedResolution
      = s.allFilesHaveInvalidatedResolution ∧
    alGet (removeResolutionsOfFile host s filePath).resolvedModuleNames filePath
      = none ∧
    alGet (removeResolutionsOfFile host s filePath).resolvedTypeReferenceDirectives
      filePath = none := by
  unfold removeResolutionsOfFile removeResolutionsOfFileFromCache
  rcases hm : alGet s.resolvedModuleNames filePath with _ | res1
  · simp only [hm]
    rcases ht : alGet s.resolvedTypeReferenceDirectives filePath with _ | res2
    · simp only [ht]
      exact ⟨trivial, trivial, hm, trivial⟩
    · simp only [ht]
      refine ⟨?_, ?_, ?_, ?_⟩
      · exact (stopResolutionsFold_fields host res2 _).1
      · exact (stopResolutionsFold_fields host res2 _).2.1
      · rw [(stopResolutionsFold_fields host res2 _).2.2.1]
        exact hm
      · exact alGet_alDelete_self _ _
  · simp only [hm]
    rw [(stopResolutionsFold_fields host res1 s).2.2.2]
    rcases ht : alGet s.resolvedTypeReferenceDirectives filePath with _ | res2
    · simp only [ht]
      refine ⟨?_, ?_, ?_, ?_⟩
      · exact (stopResolutionsFold_fields host res1 s).1
      · exact (stopResolutionsFold_fields host res1 s).2.1
      · exact alGet_alDelete_self _ _
      · trivial
    · simp only [ht]
      refine ⟨?_, ?_, ?_, ?_⟩
      · rw [(stopResolutionsFold_fields host res2 _).1]
        exact (stopResolutionsFold_fields host res1 s).1
      · rw [(stopResolutionsFold_fields host res2 _).2.1]
        exact (stopResolutionsFold_fields host res1 s).2.1
      · rw [(stopResolutionsFold_fields host res2 _).2.2.1]
        exact alGet_alDelete_self _ _
      · exact alGet_alDelete_self _ _

/-- Exact marking for the precise (under-ceiling) branch of
`invalidateResolutions`: both caches are walked, the watch map and the
per-file caches are untouched, and a record is marked invalidated exactly
when some cache references it, it was not yet invalidated, and the predicate
holds — provided the `(directory, name)` pairs of each cache are pairwise
distinct (per-directory aliasing well-formedness) and the referenced record
ids are pairwise distinct (no aliasing between cache slots). -/
theorem invalidateResolutions_exact (host : ResolutionCacheHost)
    (pred : Resolution → Bool) (sR : ResolutionCacheState)
    (hlim : hasReachedResolutionIterationLimit host sR = false)
    (hpm : ((cacheTriples sR.resolvedModuleNames).map
        (fun t => (getDirectoryPath t.1, t.2.1))).Nodup)
    (hpt : ((cacheTriples sR.resolvedTypeReferenceDirectives).map
        (fun t => (getDirectoryPath t.1, t.2.1))).Nodup)
    (hrids : (((cacheTriples sR.resolvedModuleNames).map (fun t => t.2.2))
        ++ ((cacheTriples sR.resolvedTypeReferenceDirectives).map
          (fun t => t.2.2))).Nodup) :
    (invalidateResolutions host pred sR).resolvedModuleNames
        = sR.resolvedModuleNames ∧
    (invalidateResolutions host pred sR).resolvedTypeReferenceDirectives
        = sR.resolvedTypeReferenceDirectives ∧
    (invalidateResolutions host pred sR).directoryWatchesOfFailedLookups
        = sR.directoryWatchesOfFailedLookups ∧
    ∀ rid r, alGet sR.heap rid = some r →
      alGet (invalidateResolutions host pred sR).heap rid
        = some (if (rid ∈ (cacheTriples sR.resolvedModuleNames).map
              (fun t => t.2.2) ∨
            rid ∈ (cacheTriples sR.resolvedTypeReferenceDirectives).map
              (fun t => t.2.2)) ∧
            r.isInvalidated = false ∧ pred r = true
          then { r with isInvalidated := true } else r) := by
  rw [List.nodup_append] at hrids
  obtain ⟨hpmr, hptr, hdisj⟩ := hrids
  unfold invalidateResolutions
  rw [if_neg (by rw [hlim]; exact Bool.false_ne_true)]
  unfold invalidateResolutionCache
  have hm1 := markView_fields (markView_invalidate_foldl pred
    (cacheTriples sR.resolvedModuleNames) (sR, []))
  have hm2 := markView_fields (markView_invalidate_foldl pred
    (cacheTriples sR.resolvedTypeReferenceDirectives)
    (((cacheTriples sR.resolvedModuleNames).foldl (invalidateStep pred)
      (sR, [])).1, []))
  refine ⟨?_, ?_, ?_, ?_⟩
  · rw [hm2.1, hm1.1]
  · rw [hm2.2.1, hm1.2.1]
  · rw [hm2.2.2.2.2.2.2.2.1, hm1.2.2.2.2.2.2.2.1]
  · intro rid r hr
    have h1 := invalidate_foldl_heap pred (cacheTriples sR.resolvedModuleNames)
      sR [] hpm hpmr (by simp) rid r hr
    have h2 := invalidate_foldl_heap pred
      (cacheTriples sR.resolvedTypeReferenceDirectives)
      ((cacheTriples sR.resolvedModuleNames).foldl (invalidateStep pred)
        (sR, [])).1 [] hpt hptr (by simp) rid _ h1
    by_cases hc : r.isInvalidated = false ∧ pred r = true
    · by_cases hmm2 : rid ∈ (cacheTriples sR.resolvedModuleNames).map
          (fun t => t.2.2)
      · have hR1 : (if rid ∈ (cacheTriples sR.resolvedModuleNames).map
              (fun t => t.2.2) ∧
              r.isInvalidated = false ∧ pred r = true
            then { r with isInvalidated := true } else r)
            = { r with isInvalidated := true } := if_pos ⟨hmm2, hc.1, hc.2⟩
        rw [hR1] at h2
        rw [if_neg (fun hcontra => by simpa using hcontra.2.1)] at h2
        rw [if_pos ⟨Or.inl hmm2, hc⟩]
        exact h2
      · have hR1 : (if rid ∈ (cacheTriples sR.resolvedModuleNames).map
              (fun t => t.2.2) ∧
              r.isInvalidated = false ∧ pred r = true
            then { r with isInvalidated := true } else r)
            = r := if_neg (fun hcon => hmm2 hcon.1)
        rw [hR1] at h2
        by_cases htm : rid ∈ (cacheTriples
            sR.resolvedTypeReferenceDirectives).map (fun t => t.2.2)
        · rw [if_pos ⟨htm, hc.1, hc.2⟩] at h2
          rw [if_pos ⟨Or.inr htm, hc⟩]
          exact h2
        · rw [if_neg (fun hcontra => htm hcontra.1)] at h2
          rw [if_neg (fun hcontra => hcontra.1.elim hmm2 htm)]
          exact h2
    · have hR1 : (if rid ∈ (cacheTriples sR.resolvedModuleNames).map
            (fun t => t.2.2) ∧
            r.isInvalidated = false ∧ pred r = true
          then { r with isInvalidated := true } else r)
          = r := if_neg (fun hcon => hc ⟨hcon.2.1, hcon.2.2⟩)
      rw [hR1] at h2
      rw [if_neg (fun hcontra => hc ⟨hcontra.2.1, hcontra.2.2⟩)] at h2
      rw [if_neg (fun hcontra => hc hcontra.2)]
      exact h2

/-- The invalidation predicate of `invalidateResolutionOfFile` holds exactly
when the resolved file name is the deleted path. -/
theorem invalidateOfFilePred_eq (filePath : Path) (r : Resolution) :
    ((match r.resolvedFileName? with
      | some result => decide (result = filePath)
      | none => false) = true)
      = (r.resolvedFileName? = some filePath) := by
  rcases hrf : r.resolvedFileName? with _ | p <;> simp [hrf]

/-- C1 (counterexample): two files in the same directory each cache the module
name `m` as distinct records whose resolved target is the deleted path
`/lib/x.ts`.  `invalidateResolutionOfFile` marks the first record invalidated,
but the per-directory `seen` dedup map skips the second file's identically
named resolution, so a cached resolution whose resolved target equals the
deleted path stays un-invalidated — the claimed "exactly those N" fails for
N = 2. -/
theorem invalidateResolutionOfFile_skips_sibling_duplicate :
    alGet (invalidateResolutionOfFile ⟨none, none⟩
        { emptyRCState with
          heap := [(1, ⟨some ["lib", "x.ts"], [], false⟩),
                   (2, ⟨some ["lib", "x.ts"], [], false⟩)]
          nextRecId := 3
          resolvedModuleNames :=
            [(["a", "f1.ts"], [("m", 1)]), (["a", "f2.ts"], [("m", 2)])] }
        ["lib", "x.ts"]).heap 1
      = some ⟨some ["lib", "x.ts"], [], true⟩ ∧
    alGet (invalidateResolutionOfFile ⟨none, none⟩
        { emptyRCState with
          heap := [(1, ⟨some ["lib", "x.ts"], [], false⟩),
                   (2, ⟨some ["lib", "x.ts"], [], false⟩)]
          nextRecId := 3
          resolvedModuleNames :=
            [(["a", "f1.ts"], [("m", 1)]), (["a", "f2.ts"], [("m", 2)])] }
        ["lib", "x.ts"]).heap 2
      = some ⟨some ["lib", "x.ts"], [], false⟩ := by
  decide

/-- C1 (amended): `invalidateResolutionOfFile(P)` purges `P`'s own per-file
cache entries from both caches, leaves the watch bookkeeping exactly as the
removal pass left it, and — provided the surviving caches are below the
iteration ceiling, reference pairwise-distinct records, and no two cache
slots share a `(directory, name)` key (the per-call dedup) — marks a heap
record invalidated exactly when some surviving cache slot references it, it
was not already invalidated, and its resolved target equals `P`; every other
record is untouched. -/
theorem invalidateResolutionOfFile_marks_targets (host : ResolutionCacheHost)
    (s : ResolutionCacheState) (filePath : Path)
    (hlim : hasReachedResolutionIterationLimit host
      (removeResolutionsOfFile host s filePath) = false)
    (hpm : ((cacheTriples
        (removeResolutionsOfFile host s filePath).resolvedModuleNames).map
        (fun t => (getDirectoryPath t.1, t.2.1))).Nodup)
    (hpt : ((cacheTriples
        (removeResolutionsOfFile host s filePath).resolvedTypeReferenceDirectives).map
        (fun t => (getDirectoryPath t.1, t.2.1))).Nodup)
    (hrids : (((cacheTriples
        (removeResolutionsOfFile host s filePath).resolvedModuleNames).map
          (fun t => t.2.2))
        ++ ((cacheTriples
          (removeResolutionsOfFile host s filePath).resolvedTypeReferenceDirectives).map
          (fun t => t.2.2))).Nodup) :
    alGet (invalidateResolutionOfFile host s filePath).resolvedModuleNames
        filePath = none ∧
    alGet (invalidateResolutionOfFile host s filePath).resolvedTypeReferenceDirectives
        filePath = none ∧
    (invalidateResolutionOfFile host s filePath).directoryWatchesOfFailedLookups
        = (removeResolutionsOfFile host s filePath).directoryWatchesOfFailedLookups ∧
    ∀ rid r, alGet s.heap rid = some r →
      alGet (invalidateResolutionOfFile host s filePath).heap rid
        = some (if (rid ∈ (cacheTriples
                (removeResolutionsOfFile host s filePath).resolvedModuleNames).map
                (fun t => t.2.2) ∨
              rid ∈ (cacheTriples
                (removeResolutionsOfFile host s filePath).resolvedTypeReferenceDirectives).map
                (fun t => t.2.2)) ∧
            r.isInvalidated = false ∧ r.resolvedFileName? = some filePath
          then { r with isInvalidated := true } else r) := by
  unfold invalidateResolutionOfFile
  have h := invalidateResolutions_exact host
    (fun resolution =>
      match resolution.resolvedFileName? with
      | some result => decide (result = filePath)
      | none => false)
    (removeResolutionsOfFile host s filePath) hlim hpm hpt hrids
  refine ⟨?_, ?_, ?_, ?_⟩
  · rw [h.1]
    exact (removeResolutionsOfFile_spec host s filePath).2.2.1
  · rw [h.2.1]
    exact (removeResolutionsOfFile_spec host s filePath).2.2.2
  · exact h.2.2.1
  · intro rid r hr
    have hr' : alGet (removeResolutionsOfFile host s filePath).heap rid
        = some r := by
      rw [(removeResolutionsOfFile_spec host s filePath).1]
      exact hr
    have h4 := h.2.2.2 rid r hr'
    simp only [invalidateOfFilePred_eq] at h4
    exact h4

/-- C1 witness: a host and a two-record cache (distinct directories) where the
amended theorem applies; the record resolving to the deleted path `/t.ts` is
marked invalidated and the record resolving elsewhere is untouched. -/
theorem invalidateResolutionOfFile_marks_targets_witness :
    alGet (invalidateResolutionOfFile ⟨none, none⟩
        { emptyRCState with
          heap := [(1, ⟨some ["t.ts"], [], false⟩),
                   (2, ⟨some ["q.ts"], [], false⟩)]
          nextRecId := 3
          resolvedModuleNames :=
            [(["a", "f1.ts"], [("m", 1)]), (["b", "f2.ts"], [("m", 2)])] }
        ["t.ts"]).heap 1
      = some ⟨some ["t.ts"], [], true⟩ ∧
    alGet (invalidateResolutionOfFile ⟨none, none⟩
        { emptyRCState with
          heap := [(1, ⟨some ["t.ts"], [], false⟩),
                   (2, ⟨some ["q.ts"], [], false⟩)]
          nextRecId := 3
          resolvedModuleNames :=
            [(["a", "f1.ts"], [("m", 1)]), (["b", "f2.ts"], [("m", 2)])] }
        ["t.ts"]).heap 2
      = some ⟨some ["q.ts"], [], false⟩ := by
  have h := invalidateResolutionOfFile_marks_targets ⟨none, none⟩
    { emptyRCState with
      heap := [(1, ⟨some ["t.ts"], [], false⟩),
               (2, ⟨some ["q.ts"], [], false⟩)]
      nextRecId := 3
      resolvedModuleNames :=
        [(["a", "f1.ts"], [("m", 1)]), (["b", "f2.ts"], [("m", 2)])] }
    ["t.ts"] (by decide) (by decide) (by decide) (by decide)
  constructor
  · have h1 := h.2.2.2 1 ⟨some ["t.ts"], [], false⟩ (by decide)
    rw [if_pos ⟨Or.inl (by decide), rfl, rfl⟩] at h1
    exact h1
  · have h2 := h.2.2.2 2 ⟨some ["q.ts"], [], false⟩ (by decide)
    rw [if_neg (fun hcon => absurd hcon.2.2 (by decide))] at h2
    exact h2

end TSModel
